import Mathlib

/-!
# Thumb core and memory bus of the GBA emulator

A shallow embedding of `src/bus/bus.{hpp,cpp}`, `src/ppu/ppu.hpp`,
`src/cart/rom.hpp` and `src/cpu/cpu.{hpp,cpp}`.

* `uint8_t`, `uint16_t`, `uint32_t` values are natural numbers; every place
  where the C++ arithmetic wraps is written with an explicit `% 2 ^ w`.
* A pointer that may be null (`Bus::ppu`, `Bus::cart`, `CPU::bus`) is an
  `Option` holding the pointee.
* The fixed-size stores (`uint32_t r[16]`, `PPU::vram`, `Bus::wram`) are
  functions from the index to the cell; their sizes are the constants the
  source uses in its range tests.
* A `bool&` out-parameter is an incoming carry argument and a returned pair.
-/

namespace gba

/-! ## 32-bit helpers -/

/-- Wrap to `uint32_t`. -/
def u32 (x : Nat) : Nat := x % 4294967296

/-- Bitwise complement `~x` of a `uint32_t`. -/
def not32 (x : Nat) : Nat := 0xFFFFFFFF ^^^ x

/-- Wrapping subtraction `a - b` of two `uint32_t`. -/
def sub32 (a b : Nat) : Nat := (a + 4294967296 - b) % 4294967296

/-- Value of a `uint32_t` reinterpreted as `int32_t`. -/
def toInt32 (x : Nat) : Int := if x < 2147483648 then (x : Int) else (x : Int) - 4294967296

/-- Value of an `int32_t` (or any integer) converted to `uint32_t`. -/
def ofInt32 (i : Int) : Nat := (i % 4294967296).toNat

/-! ## PPU, cartridge and bus -/

/-- Mode 3 display surface: `WIDTH * HEIGHT` cells of 16 bits. -/
structure PPU where
  vram : Nat → Nat

def PPU.WIDTH : Nat := 240
def PPU.HEIGHT : Nat := 160

/-- Number of cells of `PPU::vram` (`vram.size()`). -/
def PPU.vramSize : Nat := PPU.WIDTH * PPU.HEIGHT

/-- Program image: a byte sequence of arbitrary length. -/
structure Cartridge where
  rom : List Nat

/-- The bus: the two attached components (`none` is a null pointer) and the
    work RAM it owns. -/
structure Bus where
  ppu : Option PPU
  cart : Option Cartridge
  wram : Nat → Nat

def Bus.VRAM_BASE : Nat := 0x06000000
def Bus.VRAM_SIZE : Nat := 240 * 160 * 2
def Bus.ROM_BASE : Nat := 0x08000000
def Bus.ROM_SIZE : Nat := 32 * 1024 * 1024
def Bus.WRAM_BASE : Nat := 0x02000000
def Bus.WRAM_SIZE : Nat := 256 * 1024

/-- Embedding of `Bus::connect`. -/
def Bus.connect (b : Bus) (ppu_ : Option PPU) (cart_ : Option Cartridge) : Bus :=
  { b with ppu := ppu_, cart := cart_ }

/-- Embedding of `Bus::read8`. -/
def Bus.read8 (b : Bus) (addr : Nat) : Nat :=
  if Bus.VRAM_BASE ≤ addr ∧ addr < Bus.VRAM_BASE + Bus.VRAM_SIZE then
    let off := addr - Bus.VRAM_BASE
    let px := match b.ppu with
      | some p => p.vram (off >>> 1)
      | none => 0
    if off &&& 1 ≠ 0 then (px >>> 8) % 256 else (px &&& 0xFF) % 256
  else if Bus.ROM_BASE ≤ addr ∧ addr < Bus.ROM_BASE + Bus.ROM_SIZE then
    match b.cart with
    | none => 0xFF
    | some c =>
      if c.rom.isEmpty then 0xFF
      else
        let off := addr - Bus.ROM_BASE
        if off < c.rom.length then c.rom.getD off 0 else 0xFF
  else if Bus.WRAM_BASE ≤ addr ∧ addr < Bus.WRAM_BASE + Bus.WRAM_SIZE then
    b.wram (addr - Bus.WRAM_BASE)
  else 0

/-- Embedding of `Bus::read16`. -/
def Bus.read16 (b : Bus) (addr : Nat) : Nat :=
  let lo := b.read8 addr
  let hi := b.read8 (u32 (addr + 1))
  (lo ||| (hi <<< 8)) % 65536

/-- Embedding of `Bus::read32`. -/
def Bus.read32 (b : Bus) (addr : Nat) : Nat :=
  let b0 := b.read8 addr
  let b1 := b.read8 (u32 (addr + 1))
  let b2 := b.read8 (u32 (addr + 2))
  let b3 := b.read8 (u32 (addr + 3))
  b0 ||| u32 (b1 <<< 8) ||| u32 (b2 <<< 16) ||| u32 (b3 <<< 24)

/-- Embedding of `Bus::write8`. -/
def Bus.write8 (b : Bus) (addr : Nat) (v : Nat) : Bus :=
  if Bus.VRAM_BASE ≤ addr ∧ addr < Bus.VRAM_BASE + Bus.VRAM_SIZE then
    match b.ppu with
    | none => b
    | some p =>
      let off := addr - Bus.VRAM_BASE
      let px := p.vram (off >>> 1)
      let px1 :=
        if off &&& 1 ≠ 0 then ((px &&& 0x00FF) ||| (v <<< 8)) % 65536
        else ((px &&& 0xFF00) ||| v) % 65536
      { b with ppu := some { p with vram := fun i => if i = off >>> 1 then px1 else p.vram i } }
  else if Bus.WRAM_BASE ≤ addr ∧ addr < Bus.WRAM_BASE + Bus.WRAM_SIZE then
    { b with wram := fun i => if i = addr - Bus.WRAM_BASE then v else b.wram i }
  else b

/-- Embedding of `Bus::write16`. -/
def Bus.write16 (b : Bus) (addr : Nat) (v : Nat) : Bus :=
  if Bus.VRAM_BASE ≤ addr ∧ addr < Bus.VRAM_BASE + Bus.VRAM_SIZE then
    match b.ppu with
    | none => b
    | some p =>
      let off := (addr - Bus.VRAM_BASE) >>> 1
      if off < PPU.vramSize then
        { b with ppu := some { p with vram := fun i => if i = off then v else p.vram i } }
      else b
  else if Bus.WRAM_BASE ≤ addr ∧ addr < Bus.WRAM_BASE + Bus.WRAM_SIZE then
    let off := addr - Bus.WRAM_BASE
    if off + 1 < Bus.WRAM_SIZE then
      { b with wram := fun i =>
          if i = off + 1 then (v >>> 8) % 256
          else if i = off then (v &&& 0xFF) % 256
          else b.wram i }
    else b
  else b

/-- Embedding of `Bus::write32`. -/
def Bus.write32 (b : Bus) (addr : Nat) (v : Nat) : Bus :=
  (b.write16 addr ((v &&& 0xFFFF) % 65536)).write16 (u32 (addr + 2)) ((v >>> 16) % 65536)

/-! ## CPU state and flag policies -/

/-- Register file, status word and the attached bus of `struct CPU`. The field
    `ub` is no member of the struct: it records that the program has executed
    an operation whose behaviour C++ leaves undefined (the signed negation in
    the `NEG` row of `CPU::exec_thumb` at `INT32_MIN`). Once it is set the
    language promises nothing about the other fields. -/
structure CPU where
  r : Nat → Nat
  cpsr : Nat
  bus : Option Bus
  ub : Bool := false

def CPU.SP : Nat := 13
def CPU.LR : Nat := 14
def CPU.PC : Nat := 15

def CPU.FLAG_N : Nat := 0x80000000
def CPU.FLAG_Z : Nat := 0x40000000
def CPU.FLAG_C : Nat := 0x20000000
def CPU.FLAG_V : Nat := 0x10000000
def CPU.FLAG_T : Nat := 0x20

/-- Assignment `r[i] = v`. -/
def CPU.setReg (s : CPU) (i v : Nat) : CPU :=
  { s with r := fun j => if j = i then v else s.r j }

/-- Embedding of `CPU::attach_bus`. -/
def CPU.attach_bus (s : CPU) (b : Option Bus) : CPU := { s with bus := b }

/-- Embedding of `CPU::reset`. -/
def CPU.reset (s : CPU) : CPU :=
  let s1 : CPU := { s with r := fun _ => 0 }
  let s2 : CPU := { s1 with cpsr := 0 }
  let s3 : CPU := { s2 with cpsr := s2.cpsr ||| (1 <<< 5) }
  let s4 := s3.setReg CPU.PC 0x08000000
  s4.setReg CPU.SP 0x03007F00

/-- Embedding of `CPU::fetch16`. -/
def CPU.fetch16 (s : CPU) (addr : Nat) : Nat :=
  match s.bus with
  | some b => b.read16 addr
  | none => 0

/-- Embedding of `CPU::fetch16_pc`: the fetched halfword and the state with the
    program counter advanced. -/
def CPU.fetch16_pc (s : CPU) : Nat × CPU :=
  let v := s.fetch16 (s.r CPU.PC &&& not32 1)
  (v, s.setReg CPU.PC (u32 (s.r CPU.PC + 2)))

/-- Embedding of `CPU::getC`. -/
def CPU.getC (s : CPU) : Bool := decide (s.cpsr &&& CPU.FLAG_C ≠ 0)

/-- Negative flag of the status word. -/
def CPU.getN (s : CPU) : Bool := decide (s.cpsr &&& CPU.FLAG_N ≠ 0)

/-- Zero flag of the status word. -/
def CPU.getZ (s : CPU) : Bool := decide (s.cpsr &&& CPU.FLAG_Z ≠ 0)

/-- Overflow flag of the status word. -/
def CPU.getV (s : CPU) : Bool := decide (s.cpsr &&& CPU.FLAG_V ≠ 0)

/-- Embedding of `CPU::setNZ`. -/
def CPU.setNZ (s : CPU) (result : Nat) : CPU :=
  let c0 := s.cpsr &&& not32 (CPU.FLAG_N ||| CPU.FLAG_Z)
  let c1 := if result &&& 0x80000000 ≠ 0 then c0 ||| CPU.FLAG_N else c0
  let c2 := if result = 0 then c1 ||| CPU.FLAG_Z else c1
  { s with cpsr := c2 }

/-- Embedding of `CPU::setLogicNZC`. -/
def CPU.setLogicNZC (s : CPU) (result : Nat) (c : Bool) : CPU :=
  let s1 := s.setNZ result
  let c1 := (s1.cpsr &&& not32 CPU.FLAG_C) ||| (if c then CPU.FLAG_C else 0)
  { s1 with cpsr := c1 &&& not32 CPU.FLAG_V }

/-- Embedding of `CPU::setAddNZCV`. -/
def CPU.setAddNZCV (s : CPU) (a b res : Nat) : CPU :=
  let s1 := s.setNZ res
  let wide := a + b
  let c1 := (s1.cpsr &&& not32 CPU.FLAG_C) ||| (if wide >>> 32 ≠ 0 then CPU.FLAG_C else 0)
  let v : Bool := decide (not32 (a ^^^ b) &&& (a ^^^ res) &&& 0x80000000 ≠ 0)
  { s1 with cpsr := (c1 &&& not32 CPU.FLAG_V) ||| (if v then CPU.FLAG_V else 0) }

/-- Embedding of `CPU::setSubNZCV`. -/
def CPU.setSubNZCV (s : CPU) (a b res : Nat) : CPU :=
  let s1 := s.setNZ res
  let c1 := (s1.cpsr &&& not32 CPU.FLAG_C) ||| (if a ≥ b then CPU.FLAG_C else 0)
  let v : Bool := decide ((a ^^^ b) &&& (a ^^^ res) &&& 0x80000000 ≠ 0)
  { s1 with cpsr := (c1 &&& not32 CPU.FLAG_V) ||| (if v then CPU.FLAG_V else 0) }

/-! ## Shifter -/

/-- Embedding of the static helper `rotate_right`. -/
def rotate_right (value amount : Nat) : Nat :=
  let amount := amount &&& 31
  (value >>> amount) ||| u32 (value <<< (32 - amount))

/-- Embedding of `CPU::lsl_c`; `c` is the value `c_out` has on entry. -/
def CPU.lsl_c (value amount : Nat) (c : Bool) : Nat × Bool :=
  if amount = 0 then (value, c)
  else if amount < 32 then
    (u32 (value <<< amount), decide (value &&& (1 <<< (32 - amount)) ≠ 0))
  else if amount = 32 then (0, decide (value &&& 1 ≠ 0))
  else (0, false)

/-- Embedding of `CPU::lsr_c`. -/
def CPU.lsr_c (value amount : Nat) (c : Bool) : Nat × Bool :=
  if amount = 0 then (value, c)
  else if amount < 32 then
    (value >>> amount, decide (value &&& (1 <<< (amount - 1)) ≠ 0))
  else if amount = 32 then (0, decide (value &&& 0x80000000 ≠ 0))
  else (0, false)

/-- Embedding of `CPU::asr_c`. -/
def CPU.asr_c (value amount : Nat) (c : Bool) : Nat × Bool :=
  if amount = 0 then (value, c)
  else if amount < 32 then
    let sign := value &&& 0x80000000
    let res := (value >>> amount) ||| (if sign ≠ 0 then not32 (0xFFFFFFFF >>> amount) else 0)
    (res, decide (value &&& (1 <<< (amount - 1)) ≠ 0))
  else
    (if value &&& 0x80000000 ≠ 0 then 0xFFFFFFFF else 0, decide (value &&& 0x80000000 ≠ 0))

/-- Embedding of `CPU::ror_c`. -/
def CPU.ror_c (value amount : Nat) (c : Bool) : Nat × Bool :=
  let amount := amount &&& 31
  if amount = 0 then (value, c)
  else
    let res := rotate_right value amount
    (res, decide (res &&& 0x80000000 ≠ 0))

/-- Embedding of `CPU::cond_passed`. -/
def CPU.cond_passed (s : CPU) (cond : Nat) : Bool :=
  let n := s.getN
  let z := s.getZ
  let c := s.getC
  let v := s.getV
  match cond with
  | 0x0 => z
  | 0x1 => !z
  | 0x2 => c
  | 0x3 => !c
  | 0x4 => n
  | 0x5 => !n
  | 0x6 => v
  | 0x7 => !v
  | 0x8 => c && !z
  | 0x9 => !c || z
  | 0xA => n == v
  | 0xB => n != v
  | 0xC => !z && (n == v)
  | 0xD => z || (n != v)
  | _ => true

/-! ## Decode and execute -/

/-- Write `c` into the Carry bit: `cpsr = (c ? (cpsr | FLAG_C) : (cpsr & ~FLAG_C))`. -/
def CPU.putC (s : CPU) (c : Bool) : CPU :=
  { s with cpsr := if c then s.cpsr ||| CPU.FLAG_C else s.cpsr &&& not32 CPU.FLAG_C }

/-- Value of `static_cast<int8_t>(x)` for a byte `x`. -/
def toInt8 (x : Nat) : Int := if x < 128 then (x : Int) else (x : Int) - 256

/-- Whether the negation in `-static_cast<int32_t>(b)` leaves the range of
    `int32_t`: it does for `INT32_MIN` only, that is for `b = 0x80000000`, and
    the behaviour of the expression is then undefined. -/
def neg_overflows (b : Nat) : Bool := decide (toInt32 b = -2147483648)

/-- The two-register ALU group of `CPU::exec_thumb` (the `switch (subop)`).
    Row 0x9 evaluates `static_cast<uint32_t>(-static_cast<int32_t>(b))`, a
    negation in `int32_t`. Where it overflows the row has no defined outcome:
    the state is marked `ub`, and its fields `r` and `cpsr` hold what a
    negation that wraps would leave, which the language does not promise. -/
def CPU.exec_alu (s : CPU) (subop rs rd : Nat) : CPU :=
  let a := s.r rd
  let b := s.r rs
  let ctmp := s.getC
  match subop with
  | 0x0 => let res := a &&& b; (s.setLogicNZC res s.getC).setReg rd res
  | 0x1 => let res := a ^^^ b; (s.setLogicNZC res s.getC).setReg rd res
  | 0x2 => let p := CPU.lsl_c a (b &&& 0xFF) ctmp; (s.setLogicNZC p.1 p.2).setReg rd p.1
  | 0x3 => let p := CPU.lsr_c a (b &&& 0xFF) ctmp; (s.setLogicNZC p.1 p.2).setReg rd p.1
  | 0x4 => let p := CPU.asr_c a (b &&& 0xFF) ctmp; (s.setLogicNZC p.1 p.2).setReg rd p.1
  | 0x5 =>
    let res := u32 (a + b + (if s.getC then 1 else 0))
    (s.setAddNZCV a (u32 (b + (if s.getC then 1 else 0))) res).setReg rd res
  | 0x6 =>
    let res := sub32 (sub32 a b) (if s.getC then 0 else 1)
    (s.setSubNZCV a (u32 (b + (if s.getC then 0 else 1))) res).setReg rd res
  | 0x7 => let p := CPU.ror_c a (b &&& 0xFF) ctmp; (s.setLogicNZC p.1 p.2).setReg rd p.1
  | 0x8 => let res := a &&& b; s.setLogicNZC res s.getC
  | 0x9 =>
    let res := ofInt32 (-(toInt32 b))
    let t := (s.setAddNZCV 0 (u32 (not32 b + 1)) res).setReg rd res
    if neg_overflows b then { t with ub := true } else t
  | 0xA => let res := sub32 a b; s.setSubNZCV a b res
  | 0xB => let res := u32 (a + b); s.setAddNZCV a b res
  | 0xC => let res := a ||| b; (s.setLogicNZC res s.getC).setReg rd res
  | 0xD =>
    let res := u32 (a * b)
    let s1 := s.setNZ res
    ({ s1 with cpsr := s1.cpsr &&& not32 (CPU.FLAG_C ||| CPU.FLAG_V) } : CPU).setReg rd res
  | 0xE => let res := a &&& not32 b; (s.setLogicNZC res s.getC).setReg rd res
  | 0xF => let res := not32 b; (s.setLogicNZC res s.getC).setReg rd res
  | _ => s

/-- Embedding of `CPU::exec_thumb`. -/
def CPU.exec_thumb (s : CPU) (op : Nat) : CPU :=
  if op &&& 0xF800 = 0x0000 then
    -- LSL Rd, Rs, #imm5
    let imm5 := (op >>> 6) &&& 0x1F
    let rs := (op >>> 3) &&& 0x7
    let rd := op &&& 0x7
    let res := s.r rs
    if imm5 ≠ 0 then
      let c : Bool := decide (res &&& (1 <<< (32 - imm5)) ≠ 0)
      let res := u32 (res <<< imm5)
      (((s.putC c).setNZ res).setReg rd res)
    else
      (s.setNZ res).setReg rd res
  else if op &&& 0xF800 = 0x0800 then
    -- LSR Rd, Rs, #imm5
    let imm5 := (op >>> 6) &&& 0x1F
    let rs := (op >>> 3) &&& 0x7
    let rd := op &&& 0x7
    let c : Bool :=
      if imm5 = 0 then decide ((s.r rs >>> 31) &&& 1 ≠ 0)
      else decide ((s.r rs >>> (imm5 - 1)) &&& 1 ≠ 0)
    let res := if imm5 = 0 then 0 else s.r rs >>> imm5
    ((s.putC c).setNZ res).setReg rd res
  else if op &&& 0xF800 = 0x1000 then
    -- ASR Rd, Rs, #imm5
    let imm5 := (op >>> 6) &&& 0x1F
    let rs := (op >>> 3) &&& 0x7
    let rd := op &&& 0x7
    let c : Bool :=
      if imm5 = 0 then decide ((s.r rs >>> 31) &&& 1 ≠ 0)
      else decide ((s.r rs >>> (imm5 - 1)) &&& 1 ≠ 0)
    let res :=
      if imm5 = 0 then (if s.r rs &&& 0x80000000 ≠ 0 then 0xFFFFFFFF else 0)
      else ofInt32 (toInt32 (s.r rs) >>> imm5)
    ((s.putC c).setNZ res).setReg rd res
  else if op &&& 0xE000 = 0x2000 then
    -- MOV Rd, #imm8
    let rd := (op >>> 8) &&& 0x7
    let imm8 := op &&& 0xFF
    let s1 := s.setReg rd imm8
    s1.setNZ (s1.r rd)
  else if op &&& 0xF800 = 0x2800 then
    -- CMP Rd, #imm8
    let rd := (op >>> 8) &&& 0x7
    let imm8 := op &&& 0xFF
    let res := sub32 (s.r rd) imm8
    s.setSubNZCV (s.r rd) imm8 res
  else if op &&& 0xF800 = 0x3000 then
    -- ADD Rd, #imm8
    let rd := (op >>> 8) &&& 0x7
    let imm8 := op &&& 0xFF
    let res := u32 (s.r rd + imm8)
    (s.setAddNZCV (s.r rd) imm8 res).setReg rd res
  else if op &&& 0xF800 = 0x3800 then
    -- SUB Rd, #imm8
    let rd := (op >>> 8) &&& 0x7
    let imm8 := op &&& 0xFF
    let res := sub32 (s.r rd) imm8
    (s.setSubNZCV (s.r rd) imm8 res).setReg rd res
  else if op &&& 0xFC00 = 0x4000 then
    -- ALU operations register
    s.exec_alu ((op >>> 6) &&& 0xF) ((op >>> 3) &&& 0x7) (op &&& 0x7)
  else if op &&& 0xF800 = 0x4800 then
    -- LDR literal (PC-relative)
    let rd := (op >>> 8) &&& 0x7
    let imm := u32 ((op &&& 0xFF) <<< 2)
    let base := s.r CPU.PC &&& not32 2
    match s.bus with
    | some b => s.setReg rd (b.read32 (u32 (base + imm)))
    | none => s
  else if op &&& 0xF800 = 0x6000 then
    let rb := (op >>> 3) &&& 0x7
    let rd := op &&& 0x7
    let imm := u32 (((op >>> 6) &&& 0x1F) <<< 2)
    match s.bus with
    | some b => { s with bus := some (b.write32 (u32 (s.r rb + imm)) (s.r rd)) }
    | none => s
  else if op &&& 0xF800 = 0x6800 then
    let rb := (op >>> 3) &&& 0x7
    let rd := op &&& 0x7
    let imm := u32 (((op >>> 6) &&& 0x1F) <<< 2)
    match s.bus with
    | some b => s.setReg rd (b.read32 (u32 (s.r rb + imm)))
    | none => s
  else if op &&& 0xF800 = 0x7000 then
    let rb := (op >>> 3) &&& 0x7
    let rd := op &&& 0x7
    let imm := (op >>> 6) &&& 0x1F
    match s.bus with
    | some b => { s with bus := some (b.write8 (u32 (s.r rb + imm)) (s.r rd % 256)) }
    | none => s
  else if op &&& 0xF800 = 0x7800 then
    let rb := (op >>> 3) &&& 0x7
    let rd := op &&& 0x7
    let imm := (op >>> 6) &&& 0x1F
    match s.bus with
    | some b => s.setReg rd (b.read8 (u32 (s.r rb + imm)))
    | none => s
  else if op &&& 0xF800 = 0x8000 then
    let rb := (op >>> 3) &&& 0x7
    let rd := op &&& 0x7
    let imm := u32 (((op >>> 6) &&& 0x1F) <<< 1)
    match s.bus with
    | some b => { s with bus := some (b.write16 (u32 (s.r rb + imm)) (s.r rd % 65536)) }
    | none => s
  else if op &&& 0xF800 = 0x8800 then
    let rb := (op >>> 3) &&& 0x7
    let rd := op &&& 0x7
    let imm := u32 (((op >>> 6) &&& 0x1F) <<< 1)
    match s.bus with
    | some b => s.setReg rd (b.read16 (u32 (s.r rb + imm)))
    | none => s
  else if op &&& 0xF800 = 0xA000 then
    -- ADD Rd, PC, #imm
    let rd := (op >>> 8) &&& 0x7
    let imm := u32 ((op &&& 0xFF) <<< 2)
    let base := s.r CPU.PC &&& not32 2
    s.setReg rd (u32 (base + imm))
  else if op &&& 0xF000 = 0xD000 then
    -- Conditional branch
    let cond := (op >>> 8) &&& 0xF
    let imm8 : Int := toInt8 (op &&& 0xFF)
    if cond = 0xF then s
    else if s.cond_passed cond then
      let offset : Int := imm8 * 2
      s.setReg CPU.PC (ofInt32 ((s.r CPU.PC : Int) + offset))
    else s
  else if op &&& 0xF800 = 0xE000 then
    -- Unconditional branch
    let imm11 : Int :=
      if (op &&& 0x7FF) &&& 0x400 ≠ 0 then ((op &&& 0x7FF : Nat) : Int) - 2048
      else ((op &&& 0x7FF : Nat) : Int)
    let offset : Int := imm11 * 2
    s.setReg CPU.PC (ofInt32 ((s.r CPU.PC : Int) + offset))
  else s

/-- Embedding of `CPU::step`. -/
def CPU.step (s : CPU) : CPU :=
  let p := s.fetch16_pc
  p.2.exec_thumb p.1

/-! ## Concrete machines used as inputs -/

/-- A machine about to fetch the halfword `w` from the start of its program
    image, with registers 0 and 1 holding `r0` and `r1`, status word `cpsr`, an
    attached blank display surface and blank work RAM. -/
def machineWith (w r0 r1 cpsr : Nat) : CPU :=
  { r := fun i => if i = 0 then r0 else if i = 1 then r1 else if i = 15 then 0x08000000 else 0,
    cpsr := cpsr,
    bus := some { ppu := some { vram := fun _ => 0 },
                  cart := some { rom := [w % 256, w / 256] },
                  wram := fun _ => 0 } }

/-- A bus with a blank display surface attached, no cartridge and blank work RAM. -/
def blankBus : Bus :=
  { ppu := some { vram := fun _ => 0 }, cart := none, wram := fun _ => 0 }

/-! ## Notions used to state the properties -/

/-- Sign extension of an `n`-bit field: the two's-complement value of `x`. -/
def sext (n x : Nat) : Int := if x < 2 ^ (n - 1) then (x : Int) else (x : Int) - 2 ^ n

/-- The condition table as the specification words it: EQ Z, NE not Z, CS C,
    CC not C, MI N, PL not N, VS V, VC not V, HI C and not Z, LS not C or Z,
    GE N = V, LT N != V, GT not Z and N = V, LE Z or N != V. -/
def condHolds (cond : Nat) (n z c v : Bool) : Bool :=
  match cond with
  | 0x0 => z
  | 0x1 => !z
  | 0x2 => c
  | 0x3 => !c
  | 0x4 => n
  | 0x5 => !n
  | 0x6 => v
  | 0x7 => !v
  | 0x8 => c && !z
  | 0x9 => !c || z
  | 0xA => n == v
  | 0xB => n != v
  | 0xC => !z && (n == v)
  | 0xD => z || (n != v)
  | _ => false

/-- None of the eighteen decode tests of `exec_thumb` matches `op`. -/
def noGroup (op : Nat) : Prop :=
  op &&& 0xF800 ≠ 0x0000 ∧ op &&& 0xF800 ≠ 0x0800 ∧ op &&& 0xF800 ≠ 0x1000 ∧
  op &&& 0xE000 ≠ 0x2000 ∧ op &&& 0xF800 ≠ 0x2800 ∧ op &&& 0xF800 ≠ 0x3000 ∧
  op &&& 0xF800 ≠ 0x3800 ∧ op &&& 0xFC00 ≠ 0x4000 ∧ op &&& 0xF800 ≠ 0x4800 ∧
  op &&& 0xF800 ≠ 0x6000 ∧ op &&& 0xF800 ≠ 0x6800 ∧ op &&& 0xF800 ≠ 0x7000 ∧
  op &&& 0xF800 ≠ 0x7800 ∧ op &&& 0xF800 ≠ 0x8000 ∧ op &&& 0xF800 ≠ 0x8800 ∧
  op &&& 0xF800 ≠ 0xA000 ∧ op &&& 0xF000 ≠ 0xD000 ∧ op &&& 0xF800 ≠ 0xE000

instance (op : Nat) : Decidable (noGroup op) := by
  unfold noGroup
  infer_instance

/-- The value `res` that the `switch (subop)` of the two-register ALU group
    computes from `a = r[rd]`, `b = r[rs]` and the Carry flag. -/
def CPU.alu_res (s : CPU) (subop rs rd : Nat) : Nat :=
  let a := s.r rd
  let b := s.r rs
  match subop with
  | 0x0 => a &&& b
  | 0x1 => a ^^^ b
  | 0x2 => (CPU.lsl_c a (b &&& 0xFF) s.getC).1
  | 0x3 => (CPU.lsr_c a (b &&& 0xFF) s.getC).1
  | 0x4 => (CPU.asr_c a (b &&& 0xFF) s.getC).1
  | 0x5 => u32 (a + b + (if s.getC then 1 else 0))
  | 0x6 => sub32 (sub32 a b) (if s.getC then 0 else 1)
  | 0x7 => (CPU.ror_c a (b &&& 0xFF) s.getC).1
  | 0x8 => a &&& b
  | 0x9 => ofInt32 (-(toInt32 b))
  | 0xA => sub32 a b
  | 0xB => u32 (a + b)
  | 0xC => a ||| b
  | 0xD => u32 (a * b)
  | 0xE => a &&& not32 b
  | 0xF => not32 b
  | _ => 0

/-- The address lies in none of the three regions of the bus. -/
def Bus.unmapped (addr : Nat) : Prop :=
  ¬ (Bus.VRAM_BASE ≤ addr ∧ addr < Bus.VRAM_BASE + Bus.VRAM_SIZE) ∧
  ¬ (Bus.ROM_BASE ≤ addr ∧ addr < Bus.ROM_BASE + Bus.ROM_SIZE) ∧
  ¬ (Bus.WRAM_BASE ≤ addr ∧ addr < Bus.WRAM_BASE + Bus.WRAM_SIZE)

instance (addr : Nat) : Decidable (Bus.unmapped addr) := by
  unfold Bus.unmapped
  infer_instance

/-- Length of the loaded program image; 0 when no cartridge is attached. -/
def Bus.imageLength (b : Bus) : Nat :=
  match b.cart with
  | none => 0
  | some c => c.rom.length

/-- The address lies in the program-image window at or beyond the end of the
    loaded image (every window address when no image is attached or the image
    is empty). -/
def Bus.pastImage (b : Bus) (addr : Nat) : Prop :=
  (Bus.ROM_BASE ≤ addr ∧ addr < Bus.ROM_BASE + Bus.ROM_SIZE) ∧
  b.imageLength ≤ addr - Bus.ROM_BASE

instance (b : Bus) (addr : Nat) : Decidable (b.pastImage addr) := by
  unfold Bus.pastImage
  infer_instance

/-- A bus whose program image holds the two bytes `0x12, 0x34`; no display
    surface is attached. -/
def twoByteBus : Bus :=
  { ppu := none, cart := some { rom := [0x12, 0x34] }, wram := fun _ => 0 }

/-- The address lies inside neither the display-surface nor the working-memory
    region, the two regions a write can change. -/
def Bus.notWritable (addr : Nat) : Prop :=
  ¬ (Bus.VRAM_BASE ≤ addr ∧ addr < Bus.VRAM_BASE + Bus.VRAM_SIZE) ∧
  ¬ (Bus.WRAM_BASE ≤ addr ∧ addr < Bus.WRAM_BASE + Bus.WRAM_SIZE)

instance (addr : Nat) : Decidable (Bus.notWritable addr) := by
  unfold Bus.notWritable
  infer_instance

/-- `t` has the program-counter parity of `s` and the same status-word bits
    below the four condition flags (bits 0..27). -/
def CPU.keeps (s t : CPU) : Prop :=
  t.r CPU.PC % 2 = s.r CPU.PC % 2 ∧ ∀ i, i < 28 → t.cpsr.testBit i = s.cpsr.testBit i

/-- The state after `n` calls of `step()`. -/
def CPU.steps : Nat → CPU → CPU
  | 0, s => s
  | n + 1, s => CPU.steps n s.step

/-! ## The test program generator (`tools/romgen.cpp`) -/

/-- Embedding of `build_thumb_rom`: the halfwords it emits, in order. -/
def build_thumb_rom (color pixels : Nat) : List Nat :=
  let lo := (color &&& 0xFF) % 256
  let hi := ((color >>> 8) &&& 0xFF) % 256
  let count := if pixels = 0 then 1 else pixels
  let count := if count > 255 then 255 else count
  let rom : List Nat :=
    [0x2206,
     (0x0000 ||| (24 <<< 6) ||| (2 <<< 3) ||| 2) % 65536,
     (0x2000 ||| (3 <<< 8) ||| lo) % 65536,
     (0x2000 ||| (4 <<< 8) ||| hi) % 65536,
     (0x0000 ||| (8 <<< 6) ||| (4 <<< 3) ||| 4) % 65536,
     (0x4000 ||| (0xC <<< 6) ||| (4 <<< 3) ||| 3) % 65536,
     (0x2000 ||| (5 <<< 8) ||| (count &&& 0xFF)) % 65536]
  let loop_index := rom.length
  let rom := rom ++
    [(0x8000 ||| (0 <<< 6) ||| (2 <<< 3) ||| 3) % 65536,
     (0x3000 ||| (2 <<< 8) ||| 2) % 65536,
     (0x3800 ||| (5 <<< 8) ||| 1) % 65536,
     (0x2800 ||| (5 <<< 8) ||| 0) % 65536]
  let from_ : Int := ((rom.length + 1) * 2 : Nat)
  let to_ : Int := (loop_index * 2 : Nat)
  let rel : Int := Int.tdiv (to_ - from_) 2
  let bne := (0xD100 ||| (ofInt32 rel &&& 0xFF)) % 65536
  rom ++ [bne, (0xE000 ||| 0x7FF) % 65536]

/-- Embedding of `to_bytes_little_endian`. -/
def to_bytes_little_endian : List Nat → List Nat
  | [] => []
  | hw :: rest =>
    (hw &&& 0xFF) % 256 :: ((hw >>> 8) &&& 0xFF) % 256 :: to_bytes_little_endian rest

/-- The machine after `GBA::reset` with the given program image loaded: the
    CPU is reset, the bus is connected to a zero-initialised display surface
    and to the cartridge, its work RAM is zero-initialised, and the bus is
    attached to the CPU. -/
def bootMachine (image : List Nat) : CPU :=
  ((CPU.mk (fun _ => 0) 0 none false).reset).attach_bus
    (some ((Bus.mk none none (fun _ => 0)).connect (some { vram := fun _ => 0 })
      (some { rom := image })))

/-- Display cell `i` as seen through the bus attached to the CPU (0 when no
    bus or no display surface is attached). -/
def CPU.cell (s : CPU) (i : Nat) : Nat :=
  match s.bus with
  | some b =>
    match b.ppu with
    | some p => p.vram i
    | none => 0
  | none => 0

/-! ## Bit-level lemmas -/

theorem and_two_pow_ne_zero (x k : Nat) : (x &&& 2 ^ k ≠ 0) ↔ x.testBit k = true := by
  constructor
  · intro h
    obtain ⟨i, hi⟩ := Nat.ne_zero_implies_bit_true h
    rw [Nat.testBit_and, Nat.testBit_two_pow] at hi
    simp only [Bool.and_eq_true, decide_eq_true_eq] at hi
    rw [hi.2]; exact hi.1
  · intro h h0
    have hk : (x &&& 2 ^ k).testBit k = true := by
      rw [Nat.testBit_and, Nat.testBit_two_pow, h]; simp
    rw [h0] at hk
    simp at hk

theorem testBit31_eq (x : Nat) (h : x < 4294967296) :
    x.testBit 31 = decide (2147483648 ≤ x) := by
  rw [Nat.testBit_to_div_mod]
  congr 1
  apply propext
  omega

theorem testBit_not32 (x i : Nat) :
    (not32 x).testBit i = (decide (i < 32) ^^ x.testBit i) := by
  unfold not32
  rw [Nat.testBit_xor]
  congr 1
  exact Nat.testBit_two_pow_sub_one 32 i

theorem testBit_FLAG_N (i : Nat) : CPU.FLAG_N.testBit i = decide (31 = i) :=
  @Nat.testBit_two_pow 31 i

theorem testBit_FLAG_Z (i : Nat) : CPU.FLAG_Z.testBit i = decide (30 = i) :=
  @Nat.testBit_two_pow 30 i

theorem testBit_FLAG_C (i : Nat) : CPU.FLAG_C.testBit i = decide (29 = i) :=
  @Nat.testBit_two_pow 29 i

theorem testBit_FLAG_V (i : Nat) : CPU.FLAG_V.testBit i = decide (28 = i) :=
  @Nat.testBit_two_pow 28 i

theorem bit31_iff (x : Nat) : (x &&& 0x80000000 ≠ 0) ↔ x.testBit 31 = true :=
  and_two_pow_ne_zero x 31

theorem flagN_iff (x : Nat) : (x &&& CPU.FLAG_N ≠ 0) ↔ x.testBit 31 = true :=
  and_two_pow_ne_zero x 31

theorem flagZ_iff (x : Nat) : (x &&& CPU.FLAG_Z ≠ 0) ↔ x.testBit 30 = true :=
  and_two_pow_ne_zero x 30

theorem flagC_iff (x : Nat) : (x &&& CPU.FLAG_C ≠ 0) ↔ x.testBit 29 = true :=
  and_two_pow_ne_zero x 29

theorem flagV_iff (x : Nat) : (x &&& CPU.FLAG_V ≠ 0) ↔ x.testBit 28 = true :=
  and_two_pow_ne_zero x 28

theorem testBit_ite (c : Prop) [Decidable c] (x y i : Nat) :
    (if c then x else y).testBit i = if c then x.testBit i else y.testBit i := by
  split <;> rfl

/-! ## Flag policies, read back through the four getters -/

theorem getN_setNZ (s : CPU) (res : Nat) : (s.setNZ res).getN = res.testBit 31 := by
  simp only [CPU.getN, CPU.setNZ, flagN_iff, bit31_iff, Nat.testBit_or, Nat.testBit_and,
    testBit_not32, testBit_ite, testBit_FLAG_N, testBit_FLAG_Z]
  by_cases h : res = 0 <;> simp [h]

theorem getZ_setNZ (s : CPU) (res : Nat) : (s.setNZ res).getZ = decide (res = 0) := by
  simp only [CPU.getZ, CPU.setNZ, flagZ_iff, bit31_iff, Nat.testBit_or, Nat.testBit_and,
    testBit_not32, testBit_ite, testBit_FLAG_N, testBit_FLAG_Z]
  by_cases h : res = 0 <;> simp [h]

theorem getC_setNZ (s : CPU) (res : Nat) : (s.setNZ res).getC = s.getC := by
  simp only [CPU.getC, CPU.setNZ, flagC_iff, bit31_iff, Nat.testBit_or, Nat.testBit_and,
    testBit_not32, testBit_ite, testBit_FLAG_N, testBit_FLAG_Z]
  by_cases h : res = 0 <;> simp [h]

theorem getV_setNZ (s : CPU) (res : Nat) : (s.setNZ res).getV = s.getV := by
  simp only [CPU.getV, CPU.setNZ, flagV_iff, bit31_iff, Nat.testBit_or, Nat.testBit_and,
    testBit_not32, testBit_ite, testBit_FLAG_N, testBit_FLAG_Z]
  by_cases h : res = 0 <;> simp [h]

theorem getN_setAddNZCV (s : CPU) (a b res : Nat) :
    (s.setAddNZCV a b res).getN = res.testBit 31 := by
  simp only [CPU.getN, CPU.setAddNZCV, CPU.setNZ, flagN_iff, bit31_iff, Nat.testBit_or,
    Nat.testBit_and, testBit_not32, testBit_ite, testBit_FLAG_N, testBit_FLAG_Z,
    testBit_FLAG_C, testBit_FLAG_V, Nat.zero_testBit]
  by_cases h : res = 0 <;> simp [h]

theorem getZ_setAddNZCV (s : CPU) (a b res : Nat) :
    (s.setAddNZCV a b res).getZ = decide (res = 0) := by
  simp only [CPU.getZ, CPU.setAddNZCV, CPU.setNZ, flagZ_iff, bit31_iff, Nat.testBit_or,
    Nat.testBit_and, testBit_not32, testBit_ite, testBit_FLAG_N, testBit_FLAG_Z,
    testBit_FLAG_C, testBit_FLAG_V, Nat.zero_testBit]
  by_cases h : res = 0 <;> simp [h]

theorem getC_setAddNZCV (s : CPU) (a b res : Nat) :
    (s.setAddNZCV a b res).getC = decide (4294967296 ≤ a + b) := by
  simp only [CPU.getC, CPU.setAddNZCV, CPU.setNZ, flagC_iff, bit31_iff, Nat.testBit_or,
    Nat.testBit_and, testBit_not32, testBit_ite, testBit_FLAG_N, testBit_FLAG_Z,
    testBit_FLAG_C, testBit_FLAG_V, Nat.zero_testBit]
  have hw : ((a + b) >>> 32 ≠ 0) ↔ 4294967296 ≤ a + b := by
    rw [Nat.shiftRight_eq_div_pow]; omega
  by_cases h : 4294967296 ≤ a + b
  · have h2 := hw.mpr h
    simp [h, h2]
  · have h2 : ¬ ((a + b) >>> 32 ≠ 0) := fun hc => h (hw.mp hc)
    simp [h, h2]

theorem getV_setAddNZCV (s : CPU) (a b res : Nat) :
    (s.setAddNZCV a b res).getV =
      (!(a.testBit 31 ^^ b.testBit 31) && (a.testBit 31 ^^ res.testBit 31)) := by
  simp only [CPU.getV, CPU.setAddNZCV, CPU.setNZ, flagV_iff, bit31_iff, Nat.testBit_or,
    Nat.testBit_and, testBit_not32, testBit_ite, testBit_FLAG_N, testBit_FLAG_Z,
    testBit_FLAG_C, testBit_FLAG_V, Nat.zero_testBit, Nat.testBit_xor]
  cases a.testBit 31 <;> cases b.testBit 31 <;> cases res.testBit 31 <;> simp

theorem getN_setSubNZCV (s : CPU) (a b res : Nat) :
    (s.setSubNZCV a b res).getN = res.testBit 31 := by
  simp only [CPU.getN, CPU.setSubNZCV, CPU.setNZ, flagN_iff, bit31_iff, Nat.testBit_or,
    Nat.testBit_and, testBit_not32, testBit_ite, testBit_FLAG_N, testBit_FLAG_Z,
    testBit_FLAG_C, testBit_FLAG_V, Nat.zero_testBit]
  by_cases h : res = 0 <;> simp [h]

theorem getZ_setSubNZCV (s : CPU) (a b res : Nat) :
    (s.setSubNZCV a b res).getZ = decide (res = 0) := by
  simp only [CPU.getZ, CPU.setSubNZCV, CPU.setNZ, flagZ_iff, bit31_iff, Nat.testBit_or,
    Nat.testBit_and, testBit_not32, testBit_ite, testBit_FLAG_N, testBit_FLAG_Z,
    testBit_FLAG_C, testBit_FLAG_V, Nat.zero_testBit]
  by_cases h : res = 0 <;> simp [h]

theorem getC_setSubNZCV (s : CPU) (a b res : Nat) :
    (s.setSubNZCV a b res).getC = decide (b ≤ a) := by
  simp only [CPU.getC, CPU.setSubNZCV, CPU.setNZ, flagC_iff, bit31_iff, Nat.testBit_or,
    Nat.testBit_and, testBit_not32, testBit_ite, testBit_FLAG_N, testBit_FLAG_Z,
    testBit_FLAG_C, testBit_FLAG_V, Nat.zero_testBit]
  by_cases h : b ≤ a <;> simp [h]

theorem getV_setSubNZCV (s : CPU) (a b res : Nat) :
    (s.setSubNZCV a b res).getV =
      ((a.testBit 31 ^^ b.testBit 31) && (a.testBit 31 ^^ res.testBit 31)) := by
  simp only [CPU.getV, CPU.setSubNZCV, CPU.setNZ, flagV_iff, bit31_iff, Nat.testBit_or,
    Nat.testBit_and, testBit_not32, testBit_ite, testBit_FLAG_N, testBit_FLAG_Z,
    testBit_FLAG_C, testBit_FLAG_V, Nat.zero_testBit, Nat.testBit_xor]
  cases a.testBit 31 <;> cases b.testBit 31 <;> cases res.testBit 31 <;> simp

theorem getV_setLogicNZC (s : CPU) (res : Nat) (c : Bool) :
    (s.setLogicNZC res c).getV = false := by
  simp only [CPU.getV, CPU.setLogicNZC, CPU.setNZ, flagV_iff, bit31_iff, Nat.testBit_or,
    Nat.testBit_and, testBit_not32, testBit_ite, testBit_FLAG_N, testBit_FLAG_Z,
    testBit_FLAG_C, testBit_FLAG_V, Nat.zero_testBit]
  simp

theorem getC_setLogicNZC (s : CPU) (res : Nat) (c : Bool) :
    (s.setLogicNZC res c).getC = c := by
  simp only [CPU.getC, CPU.setLogicNZC, CPU.setNZ, flagC_iff, bit31_iff, Nat.testBit_or,
    Nat.testBit_and, testBit_not32, testBit_ite, testBit_FLAG_N, testBit_FLAG_Z,
    testBit_FLAG_C, testBit_FLAG_V, Nat.zero_testBit]
  cases c <;> simp

/-! ## Bus lemmas -/

/-- A byte read inside the display-surface region with the surface attached. -/
theorem read8_vram (b : Bus) (p : PPU) (addr : Nat) (hp : b.ppu = some p)
    (h1 : Bus.VRAM_BASE ≤ addr) (h2 : addr < Bus.VRAM_BASE + Bus.VRAM_SIZE) :
    b.read8 addr =
      if (addr - Bus.VRAM_BASE) % 2 = 1 then (p.vram ((addr - Bus.VRAM_BASE) / 2) >>> 8) % 256
      else (p.vram ((addr - Bus.VRAM_BASE) / 2) &&& 0xFF) % 256 := by
  unfold Bus.read8
  rw [if_pos ⟨h1, h2⟩]
  simp only [hp, Nat.shiftRight_eq_div_pow, Nat.and_one_is_mod, Nat.pow_one]
  by_cases h : (addr - Bus.VRAM_BASE) % 2 = 1
  · rw [if_pos h, if_pos (by omega)]
  · rw [if_neg h, if_neg (by omega)]

/-- A byte read inside the working-memory region. -/
theorem read8_wram (b : Bus) (addr : Nat)
    (h1 : Bus.WRAM_BASE ≤ addr) (h2 : addr < Bus.WRAM_BASE + Bus.WRAM_SIZE) :
    b.read8 addr = b.wram (addr - Bus.WRAM_BASE) := by
  unfold Bus.read8
  simp only [Bus.VRAM_BASE, Bus.VRAM_SIZE, Bus.ROM_BASE, Bus.ROM_SIZE, Bus.WRAM_BASE,
    Bus.WRAM_SIZE] at h1 h2 ⊢
  rw [if_neg (by omega), if_neg (by omega), if_pos ⟨h1, h2⟩]

/-- The low byte and the high byte of a halfword, joined little-endian, give
    the halfword back. -/
theorem halves_join (v : Nat) (hv : v < 65536) :
    ((v &&& 0xFF) % 256 ||| ((v >>> 8) % 256) <<< 8) % 65536 = v := by
  have h1 : v &&& 0xFF = v % 256 := Nat.and_pow_two_sub_one_eq_mod v 8
  rw [h1, Nat.shiftRight_eq_div_pow, Nat.shiftLeft_eq, Nat.or_comm]
  have h2 : v / 2 ^ 8 % 256 * 2 ^ 8 ||| v % 256 % 256
      = 2 ^ 8 * (v / 2 ^ 8 % 256) + v % 256 % 256 := by
    rw [Nat.mul_comm]
    exact (Nat.mul_add_lt_is_or (by omega) _).symm
  rw [h2]
  omega

/-! ## Decode lemmas -/

theorem mov_group_not_shift (op c : Nat) (h : op &&& 0xE000 = 0x2000)
    (hc : c.testBit 13 = false) : op &&& 0xF800 ≠ c := by
  intro h2
  have h13 : (op &&& 0xE000).testBit 13 = true := by rw [h]; decide
  have h13b : (op &&& 0xF800).testBit 13 = false := by rw [h2]; exact hc
  rw [Nat.testBit_and] at h13 h13b
  have e1 : Nat.testBit 0xE000 13 = true := by decide
  have e2 : Nat.testBit 0xF800 13 = true := by decide
  rw [e1] at h13
  rw [e2] at h13b
  simp at h13 h13b
  rw [h13] at h13b
  exact Bool.noConfusion h13b

/-- Every word of the group `001x xxxx xxxx xxxx` takes the `MOV Rd, #imm8`
    branch of `exec_thumb`: the mask `0xE000` of that branch also covers the
    words `0x2800`-`0x3FFF` of the three branches that follow it. -/
theorem exec_thumb_mov_group (s : CPU) (op : Nat) (h : op &&& 0xE000 = 0x2000) :
    s.exec_thumb op = (s.setReg ((op >>> 8) &&& 0x7) (op &&& 0xFF)).setNZ (op &&& 0xFF) := by
  have h0 := mov_group_not_shift op 0x0000 h (by decide)
  have h1 := mov_group_not_shift op 0x0800 h (by decide)
  have h2 := mov_group_not_shift op 0x1000 h (by decide)
  unfold CPU.exec_thumb
  rw [if_neg h0, if_neg h1, if_neg h2, if_pos h]
  simp [CPU.setReg]

set_option maxRecDepth 1000000 in
theorem decode_mov_imm : ∀ rd : Fin 8, ∀ imm : Fin 256,
    (0x2000 ||| rd.val <<< 8 ||| imm.val) &&& 0xE000 = 0x2000 ∧
    ((0x2000 ||| rd.val <<< 8 ||| imm.val) >>> 8) &&& 0x7 = rd.val ∧
    (0x2000 ||| rd.val <<< 8 ||| imm.val) &&& 0xFF = imm.val := by decide

/-! ## The immediate ALU group -/

/-- C1 (code evaluated at the failing input): with r0 = 5 the fetched word
    `0x280A` (compare r0 with 10) is executed by the move-immediate branch:
    the step ends with r0 = 10 instead of 5 and with Negative clear instead
    of set. -/
theorem cmp_imm_runs_as_mov :
    (machineWith 0x280A 5 0 0x20).fetch16_pc.1 = 0x2800 ||| 0 <<< 8 ||| 10 ∧
    (machineWith 0x280A 5 0 0x20).r 0 = 5 ∧
    ((machineWith 0x280A 5 0 0x20).step).r 0 = 10 ∧
    ((machineWith 0x280A 5 0 0x20).step).getN = false := by
  decide

/-- C2 (code evaluated at the failing inputs): with r0 = 5 the fetched words
    `0x3003` (add 3 to r0) and `0x3803` (subtract 3 from r0) are both executed
    by the move-immediate branch: each step ends with r0 = 3, not 8 and not 2. -/
theorem add_sub_imm_run_as_mov :
    (machineWith 0x3003 5 0 0x20).fetch16_pc.1 = 0x3000 ||| 0 <<< 8 ||| 3 ∧
    ((machineWith 0x3003 5 0 0x20).step).r 0 = 3 ∧
    (machineWith 0x3803 5 0 0x20).fetch16_pc.1 = 0x3800 ||| 0 <<< 8 ||| 3 ∧
    ((machineWith 0x3803 5 0 0x20).step).r 0 = 3 := by
  decide

/-- C3 as stated fails: from a state whose oVerflow flag is set, the step that
    fetches `0x2005` (move 5 into r0) does not end with oVerflow clear. -/
theorem mov_imm_overflow_kept :
    (machineWith 0x2005 0 0 0x10000020).fetch16_pc.1 = 0x2000 ||| 0 <<< 8 ||| 5 ∧
    ¬ (((machineWith 0x2005 0 0 0x10000020).step).r 0 = 5 ∧
       ((machineWith 0x2005 0 0 0x10000020).step).getN = false ∧
       ((machineWith 0x2005 0 0 0x10000020).step).getV = false ∧
       (((machineWith 0x2005 0 0 0x10000020).step).getZ = true ↔ 5 = 0)) := by
  decide

/-- C3 (amended): for every machine state, rd in 0..7 and imm8 in 0..255, one
    step whose fetched word is `0x2000 | rd<<8 | imm8` ends with Rd = imm8,
    Negative clear, Zero set iff imm8 = 0, and with oVerflow and Carry as they
    were before the step. -/
theorem mov_imm_step (s : CPU) (rd imm8 : Nat) (hrd : rd < 8) (himm : imm8 < 256)
    (hfetch : s.fetch16_pc.1 = 0x2000 ||| rd <<< 8 ||| imm8) :
    (s.step).r rd = imm8 ∧ (s.step).getN = false ∧
    ((s.step).getZ = true ↔ imm8 = 0) ∧
    (s.step).getV = s.getV ∧ (s.step).getC = s.getC := by
  obtain ⟨d1, d2, d3⟩ := decode_mov_imm ⟨rd, hrd⟩ ⟨imm8, himm⟩
  simp only at d1 d2 d3
  have hstep : s.step = ((s.fetch16_pc.2).setReg rd imm8).setNZ imm8 := by
    unfold CPU.step
    simp only
    rw [hfetch, exec_thumb_mov_group _ _ d1, d2, d3]
  rw [hstep, getN_setNZ, getZ_setNZ, getV_setNZ, getC_setNZ]
  refine ⟨?_, ?_, ?_, rfl, rfl⟩
  · simp [CPU.setNZ, CPU.setReg]
  · exact Nat.testBit_lt_two_pow (Nat.lt_of_lt_of_le himm (by decide))
  · simp

/-- Witness of `mov_imm_step`: the word `0x2005` fetched from a state with all
    flags clear gives r0 = 5 with Negative, Zero and oVerflow clear. -/
theorem mov_imm_step_witness :
    (machineWith 0x2005 0 0 0x20).fetch16_pc.1 = 0x2000 ||| 0 <<< 8 ||| 5 ∧
    ((machineWith 0x2005 0 0 0x20).step).r 0 = 5 ∧
    ((machineWith 0x2005 0 0 0x20).step).getN = false ∧
    (((machineWith 0x2005 0 0 0x20).step).getZ = true ↔ 5 = 0) ∧
    ((machineWith 0x2005 0 0 0x20).step).getV = (machineWith 0x2005 0 0 0x20).getV ∧
    ((machineWith 0x2005 0 0 0x20).step).getC = (machineWith 0x2005 0 0 0x20).getC :=
  ⟨by decide,
   mov_imm_step (machineWith 0x2005 0 0 0x20) 0 5 (by decide) (by decide) (by decide)⟩

/-! ## Halfword round trip on the bus -/

/-- C4 as stated fails: at the odd display address `0x06000001` the halfword
    `0x1234` written by `write16` reads back as `0x0012`, and at the last
    working-memory address `0x0203FFFF` it reads back as 0. -/
theorem write16_read16_fails :
    (Bus.VRAM_BASE ≤ 0x06000001 ∧ 0x06000001 < Bus.VRAM_BASE + Bus.VRAM_SIZE) ∧
    blankBus.ppu.isSome = true ∧
    (blankBus.write16 0x06000001 0x1234).read16 0x06000001 = 0x0012 ∧
    (Bus.WRAM_BASE ≤ 0x0203FFFF ∧ 0x0203FFFF < Bus.WRAM_BASE + Bus.WRAM_SIZE) ∧
    (blankBus.write16 0x0203FFFF 0x1234).read16 0x0203FFFF = 0 := by
  decide

/-- C4 (amended): with the display surface attached, for every 16-bit value v
    and every even address inside the display-surface region, or every address
    addr with both addr and addr + 1 inside the working-memory region,
    `write16(addr, v)` followed by `read16(addr)` returns v. -/
theorem write16_read16_roundtrip (b : Bus) (addr v : Nat) (hp : b.ppu.isSome = true)
    (hv : v < 65536)
    (h : (Bus.VRAM_BASE ≤ addr ∧ addr < Bus.VRAM_BASE + Bus.VRAM_SIZE ∧ addr % 2 = 0) ∨
         (Bus.WRAM_BASE ≤ addr ∧ addr + 1 < Bus.WRAM_BASE + Bus.WRAM_SIZE)) :
    (b.write16 addr v).read16 addr = v := by
  obtain ⟨p, hp⟩ := Option.isSome_iff_exists.mp hp
  rcases h with ⟨h1, h2, h3⟩ | ⟨h1, h2⟩
  · have hw : b.write16 addr v =
        { b with ppu := some { p with vram := fun i =>
            if i = (addr - Bus.VRAM_BASE) / 2 then v else p.vram i } } := by
      unfold Bus.write16
      simp only [Bus.VRAM_BASE, Bus.VRAM_SIZE, PPU.vramSize, PPU.WIDTH, PPU.HEIGHT, hp,
        Nat.shiftRight_eq_div_pow, Nat.pow_one] at h1 h2 ⊢
      rw [if_pos ⟨h1, h2⟩, if_pos (by omega)]
    simp only [Bus.VRAM_BASE, Bus.VRAM_SIZE] at h1 h2
    have hu : u32 (addr + 1) = addr + 1 := by unfold u32; omega
    rw [hw]
    unfold Bus.read16
    simp only [hu]
    rw [read8_vram _ _ addr rfl (by simp only [Bus.VRAM_BASE]; omega)
          (by simp only [Bus.VRAM_BASE, Bus.VRAM_SIZE]; omega),
        read8_vram _ _ (addr + 1) rfl (by simp only [Bus.VRAM_BASE]; omega)
          (by simp only [Bus.VRAM_BASE, Bus.VRAM_SIZE]; omega)]
    simp only [Bus.VRAM_BASE]
    rw [if_neg (show ¬ (addr - 100663296) % 2 = 1 by omega),
        if_pos (show (addr + 1 - 100663296) % 2 = 1 by omega),
        if_pos True.intro,
        if_pos (show (addr + 1 - 100663296) / 2 = (addr - 100663296) / 2 by omega)]
    exact halves_join v hv
  · simp only [Bus.WRAM_BASE, Bus.WRAM_SIZE] at h1 h2
    have hw : b.write16 addr v =
        { b with wram := fun i =>
            if i = addr - Bus.WRAM_BASE + 1 then (v >>> 8) % 256
            else if i = addr - Bus.WRAM_BASE then (v &&& 0xFF) % 256
            else b.wram i } := by
      unfold Bus.write16
      simp only [Bus.VRAM_BASE, Bus.VRAM_SIZE, Bus.WRAM_BASE, Bus.WRAM_SIZE]
      rw [if_neg (by omega), if_pos (by omega), if_pos (by omega)]
    have hu : u32 (addr + 1) = addr + 1 := by unfold u32; omega
    rw [hw]
    unfold Bus.read16
    simp only [hu]
    rw [read8_wram _ addr (by simp only [Bus.WRAM_BASE]; omega)
          (by simp only [Bus.WRAM_BASE, Bus.WRAM_SIZE]; omega),
        read8_wram _ (addr + 1) (by simp only [Bus.WRAM_BASE]; omega)
          (by simp only [Bus.WRAM_BASE, Bus.WRAM_SIZE]; omega)]
    simp only [Bus.WRAM_BASE]
    rw [if_neg (show ¬ addr - 33554432 = addr - 33554432 + 1 by omega),
        if_pos True.intro,
        if_pos (show addr + 1 - 33554432 = addr - 33554432 + 1 by omega)]
    exact halves_join v hv

/-- Witness of `write16_read16_roundtrip` at the even display address
    `0x06000002`. -/
theorem write16_read16_roundtrip_witness :
    (blankBus.ppu.isSome = true ∧ 0xBEEF < 65536 ∧
      ((Bus.VRAM_BASE ≤ 0x06000002 ∧ 0x06000002 < Bus.VRAM_BASE + Bus.VRAM_SIZE ∧
          0x06000002 % 2 = 0) ∨
       (Bus.WRAM_BASE ≤ 0x06000002 ∧ 0x06000002 + 1 < Bus.WRAM_BASE + Bus.WRAM_SIZE))) ∧
    (blankBus.write16 0x06000002 0xBEEF).read16 0x06000002 = 0xBEEF :=
  ⟨⟨by decide, by decide, Or.inl (by decide)⟩,
   write16_read16_roundtrip blankBus 0x06000002 0xBEEF (by decide) (by decide)
     (Or.inl (by decide))⟩

/-! ## The two-register ALU group -/

set_option maxRecDepth 1000000 in
theorem decode_alu : ∀ subop : Fin 16, ∀ rs : Fin 8, ∀ rd : Fin 8,
    (0x4000 ||| subop.val <<< 6 ||| rs.val <<< 3 ||| rd.val) &&& 0xF800 = 0x4000 ∧
    (0x4000 ||| subop.val <<< 6 ||| rs.val <<< 3 ||| rd.val) &&& 0xE000 = 0x4000 ∧
    (0x4000 ||| subop.val <<< 6 ||| rs.val <<< 3 ||| rd.val) &&& 0xFC00 = 0x4000 ∧
    ((0x4000 ||| subop.val <<< 6 ||| rs.val <<< 3 ||| rd.val) >>> 6) &&& 0xF = subop.val ∧
    ((0x4000 ||| subop.val <<< 6 ||| rs.val <<< 3 ||| rd.val) >>> 3) &&& 0x7 = rs.val ∧
    (0x4000 ||| subop.val <<< 6 ||| rs.val <<< 3 ||| rd.val) &&& 0x7 = rd.val := by decide

/-- A word `0x4000 | subop<<6 | rs<<3 | rd` is executed by the two-register ALU
    group with these three fields. -/
theorem exec_thumb_alu (s : CPU) (subop rs rd : Nat) (h1 : subop < 16) (h2 : rs < 8)
    (h3 : rd < 8) :
    s.exec_thumb (0x4000 ||| subop <<< 6 ||| rs <<< 3 ||| rd) = s.exec_alu subop rs rd := by
  obtain ⟨d1, d2, d3, d4, d5, d6⟩ := decode_alu ⟨subop, h1⟩ ⟨rs, h2⟩ ⟨rd, h3⟩
  simp only at d1 d2 d3 d4 d5 d6
  unfold CPU.exec_thumb
  simp only [d1, d2, d3, d4, d5, d6]
  simp

/-- C5: for all 32-bit a and b, `setAddNZCV(a, b, (a + b) mod 2^32)` sets Carry
    iff a + b > 0xFFFFFFFF without wrap-around, oVerflow iff the signed sum of
    a and b leaves [-2^31, 2^31 - 1], Negative to bit 31 of the 32-bit sum and
    Zero iff the 32-bit sum is 0; and compare-negated (sub-operation 0xB) runs
    exactly this policy on Rd and Rs. -/
theorem setAddNZCV_policy (s : CPU) (a b rd rs : Nat) (ha : a < 4294967296)
    (hb : b < 4294967296) (hrd : rd < 8) (hrs : rs < 8) :
    ((s.setAddNZCV a b (u32 (a + b))).getC = true ↔ a + b > 0xFFFFFFFF) ∧
    ((s.setAddNZCV a b (u32 (a + b))).getV = true ↔
      (toInt32 a + toInt32 b < -2147483648 ∨ 2147483647 < toInt32 a + toInt32 b)) ∧
    (s.setAddNZCV a b (u32 (a + b))).getN = (u32 (a + b)).testBit 31 ∧
    ((s.setAddNZCV a b (u32 (a + b))).getZ = true ↔ u32 (a + b) = 0) ∧
    s.exec_thumb (0x4000 ||| 0xB <<< 6 ||| rs <<< 3 ||| rd)
      = s.setAddNZCV (s.r rd) (s.r rs) (u32 (s.r rd + s.r rs)) := by
  have hr : u32 (a + b) < 4294967296 := Nat.mod_lt _ (by decide)
  refine ⟨?_, ?_, ?_, ?_, ?_⟩
  · rw [getC_setAddNZCV]; simp; omega
  · rw [getV_setAddNZCV, testBit31_eq a ha, testBit31_eq b hb, testBit31_eq _ hr]
    unfold toInt32 u32
    by_cases h1 : a < 2147483648 <;> by_cases h2 : b < 2147483648 <;>
      by_cases h3 : 2147483648 ≤ (a + b) % 4294967296 <;>
      simp [h1, h2, h3] <;> omega
  · rw [getN_setAddNZCV]
  · rw [getZ_setAddNZCV]; simp
  · rw [exec_thumb_alu s 0xB rs rd (by decide) hrs hrd]
    rfl

/-- Witness of `setAddNZCV_policy`: a = 0xFFFFFFFF, b = 1 carries out of 32
    bits, and a = b = 0x7FFFFFFF overflows the signed range. -/
theorem setAddNZCV_policy_witness :
    (0xFFFFFFFF < 4294967296 ∧ 1 < 4294967296 ∧ 0 < 8 ∧ 1 < 8) ∧
    (((machineWith 0x42C8 0xFFFFFFFF 1 0x20).setAddNZCV 0xFFFFFFFF 1
        (u32 (0xFFFFFFFF + 1))).getC = true ↔ 0xFFFFFFFF + 1 > 0xFFFFFFFF) ∧
    (((machineWith 0x42C8 0xFFFFFFFF 1 0x20).step).getC = true ∧
     ((machineWith 0x42C8 0xFFFFFFFF 1 0x20).step).getZ = true ∧
     ((machineWith 0x42C8 0x7FFFFFFF 0x7FFFFFFF 0x20).step).getV = true) :=
  ⟨by decide,
   (setAddNZCV_policy (machineWith 0x42C8 0xFFFFFFFF 1 0x20) 0xFFFFFFFF 1 0 1 (by decide)
      (by decide) (by decide) (by decide)).1,
   by decide⟩

/-- C6: for all 32-bit a and b, `setSubNZCV(a, b, (a - b) mod 2^32)` sets Carry
    iff a >= b unsigned, oVerflow iff the signed difference a - b leaves
    [-2^31, 2^31 - 1], Negative to bit 31 of the 32-bit difference and Zero iff
    a = b; and register compare (sub-operation 0xA) runs exactly this policy on
    Rd and Rs. -/
theorem setSubNZCV_policy (s : CPU) (a b rd rs : Nat) (ha : a < 4294967296)
    (hb : b < 4294967296) (hrd : rd < 8) (hrs : rs < 8) :
    ((s.setSubNZCV a b (sub32 a b)).getC = true ↔ a ≥ b) ∧
    ((s.setSubNZCV a b (sub32 a b)).getV = true ↔
      (toInt32 a - toInt32 b < -2147483648 ∨ 2147483647 < toInt32 a - toInt32 b)) ∧
    (s.setSubNZCV a b (sub32 a b)).getN = (sub32 a b).testBit 31 ∧
    ((s.setSubNZCV a b (sub32 a b)).getZ = true ↔ a = b) ∧
    s.exec_thumb (0x4000 ||| 0xA <<< 6 ||| rs <<< 3 ||| rd)
      = s.setSubNZCV (s.r rd) (s.r rs) (sub32 (s.r rd) (s.r rs)) := by
  have hr : sub32 a b < 4294967296 := Nat.mod_lt _ (by decide)
  refine ⟨?_, ?_, ?_, ?_, ?_⟩
  · rw [getC_setSubNZCV]; simp
  · rw [getV_setSubNZCV, testBit31_eq a ha, testBit31_eq b hb, testBit31_eq _ hr]
    unfold toInt32 sub32
    by_cases h1 : a < 2147483648 <;> by_cases h2 : b < 2147483648 <;>
      by_cases h3 : 2147483648 ≤ (a + 4294967296 - b) % 4294967296 <;>
      simp [h1, h2, h3] <;> omega
  · rw [getN_setSubNZCV]
  · rw [getZ_setSubNZCV]
    unfold sub32
    simp
    omega
  · rw [exec_thumb_alu s 0xA rs rd (by decide) hrs hrd]
    rfl

/-- Witness of `setSubNZCV_policy`: comparing a = 5 with b = 10 borrows, and
    comparing 0x80000000 with 1 overflows the signed range. -/
theorem setSubNZCV_policy_witness :
    (5 < 4294967296 ∧ 10 < 4294967296 ∧ 0 < 8 ∧ 1 < 8) ∧
    (((machineWith 0x4288 5 10 0x20).setSubNZCV 5 10 (sub32 5 10)).getC = true ↔ 5 ≥ 10) ∧
    (((machineWith 0x4288 5 10 0x20).step).getC = false ∧
     ((machineWith 0x4288 5 10 0x20).step).getN = true ∧
     ((machineWith 0x4288 0x80000000 1 0x20).step).getV = true) :=
  ⟨by decide,
   (setSubNZCV_policy (machineWith 0x4288 5 10 0x20) 5 10 0 1 (by decide) (by decide)
      (by decide) (by decide)).1,
   by decide⟩

/-- C7 (code evaluated at the failing input): from a state whose oVerflow flag
    is set, with r0 = 3 and r1 = 1, each of the ten logical two-register words
    (AND, EOR, LSL, LSR, ASR, ROR, TST, ORR, BIC, MVN on r0, r1) ends its step
    with oVerflow clear: `setLogicNZC` clears the flag instead of keeping it. -/
theorem logical_alu_clears_overflow :
    (machineWith 0x4008 3 1 0x10000020).getV = true ∧
    ((machineWith (0x4000 ||| 0x0 <<< 6 ||| 1 <<< 3 ||| 0) 3 1 0x10000020).step).getV = false ∧
    ((machineWith (0x4000 ||| 0x1 <<< 6 ||| 1 <<< 3 ||| 0) 3 1 0x10000020).step).getV = false ∧
    ((machineWith (0x4000 ||| 0x2 <<< 6 ||| 1 <<< 3 ||| 0) 3 1 0x10000020).step).getV = false ∧
    ((machineWith (0x4000 ||| 0x3 <<< 6 ||| 1 <<< 3 ||| 0) 3 1 0x10000020).step).getV = false ∧
    ((machineWith (0x4000 ||| 0x4 <<< 6 ||| 1 <<< 3 ||| 0) 3 1 0x10000020).step).getV = false ∧
    ((machineWith (0x4000 ||| 0x7 <<< 6 ||| 1 <<< 3 ||| 0) 3 1 0x10000020).step).getV = false ∧
    ((machineWith (0x4000 ||| 0x8 <<< 6 ||| 1 <<< 3 ||| 0) 3 1 0x10000020).step).getV = false ∧
    ((machineWith (0x4000 ||| 0xC <<< 6 ||| 1 <<< 3 ||| 0) 3 1 0x10000020).step).getV = false ∧
    ((machineWith (0x4000 ||| 0xE <<< 6 ||| 1 <<< 3 ||| 0) 3 1 0x10000020).step).getV = false ∧
    ((machineWith (0x4000 ||| 0xF <<< 6 ||| 1 <<< 3 ||| 0) 3 1 0x10000020).step).getV = false := by
  decide

/-- C8 (code evaluated at the failing input): add-with-carry of a = 0 and
    b = 0xFFFFFFFF with carry-in 1 writes Rd = (a + b + 1) mod 2^32 = 0, and
    although a + b + 1 exceeds 0xFFFFFFFF the step ends with Carry clear. -/
theorem adc_carry_lost :
    (machineWith 0x4148 0 0xFFFFFFFF 0x20000020).fetch16_pc.1
      = 0x4000 ||| 0x5 <<< 6 ||| 1 <<< 3 ||| 0 ∧
    (machineWith 0x4148 0 0xFFFFFFFF 0x20000020).getC = true ∧
    ((machineWith 0x4148 0 0xFFFFFFFF 0x20000020).step).r 0
      = (0 + 0xFFFFFFFF + 1) % 4294967296 ∧
    0 + 0xFFFFFFFF + 1 > 0xFFFFFFFF ∧
    ((machineWith 0x4148 0 0xFFFFFFFF 0x20000020).step).getC = false := by
  decide

/-- C9 (code evaluated at the failing input): subtract-with-carry of a = 0 and
    b = 0xFFFFFFFF with carry-in 0 writes Rd = (a - b - 1) mod 2^32 = 0, and
    although a < b + 1 (a borrow occurs) the step ends with Carry set. -/
theorem sbc_borrow_lost :
    (machineWith 0x4188 0 0xFFFFFFFF 0x20).fetch16_pc.1
      = 0x4000 ||| 0x6 <<< 6 ||| 1 <<< 3 ||| 0 ∧
    (machineWith 0x4188 0 0xFFFFFFFF 0x20).getC = false ∧
    ((machineWith 0x4188 0 0xFFFFFFFF 0x20).step).r 0 = 0 ∧
    ¬ (0 ≥ 0xFFFFFFFF + (1 - 0)) ∧
    ((machineWith 0x4188 0 0xFFFFFFFF 0x20).step).getC = true := by
  decide

/-! ## Reset -/

/-- C10 as stated fails: after `reset()` register 13 does not lie inside the
    working-memory region. -/
theorem reset_sp_outside_wram :
    ¬ (Bus.WRAM_BASE ≤ ((machineWith 0 0 0 0).reset).r 13 ∧
       ((machineWith 0 0 0 0).reset).r 13 < Bus.WRAM_BASE + Bus.WRAM_SIZE) := by
  decide

/-- C10 (amended): after `reset()` the stack pointer holds the fixed placeholder
    `0x03007F00`, which lies above the working-memory region and below the
    display-surface and program-image regions, so it is unmapped: a byte read
    there returns 0 on every bus. -/
theorem reset_sp_placeholder (s : CPU) :
    (s.reset).r CPU.SP = 0x03007F00 ∧
    Bus.WRAM_BASE + Bus.WRAM_SIZE ≤ (s.reset).r CPU.SP ∧
    (s.reset).r CPU.SP < Bus.VRAM_BASE ∧
    (s.reset).r CPU.SP < Bus.ROM_BASE ∧
    ∀ b : Bus, b.read8 ((s.reset).r CPU.SP) = 0 := by
  have h : (s.reset).r CPU.SP = 0x03007F00 := by
    simp [CPU.reset, CPU.setReg, CPU.SP]
  rw [h]
  refine ⟨rfl, by decide, by decide, by decide, ?_⟩
  intro b
  unfold Bus.read8
  simp [Bus.VRAM_BASE, Bus.VRAM_SIZE, Bus.ROM_BASE, Bus.ROM_SIZE, Bus.WRAM_BASE, Bus.WRAM_SIZE]

/-! ## Decode by arithmetic -/

/-- Masking with a run of `n` ones starting at bit `k` keeps that bit field. -/
theorem and_shifted_mask (op k n : Nat) :
    op &&& ((2 ^ n - 1) * 2 ^ k) = (op / 2 ^ k % 2 ^ n) * 2 ^ k := by
  apply Nat.eq_of_testBit_eq
  intro i
  rw [Nat.mul_comm (2 ^ n - 1), Nat.mul_comm _ (2 ^ k), Nat.testBit_and,
    Nat.testBit_mul_pow_two, Nat.testBit_mul_pow_two,
    Nat.testBit_two_pow_sub_one, Nat.testBit_mod_two_pow, ← Nat.shiftRight_eq_div_pow,
    Nat.testBit_shiftRight]
  by_cases h : k ≤ i
  · have e : k + (i - k) = i := by omega
    simp [h, e, Bool.and_comm]
  · simp [h]

theorem mask_F800 (op : Nat) : op &&& 0xF800 = op / 2048 % 32 * 2048 :=
  and_shifted_mask op 11 5

theorem mask_E000 (op : Nat) : op &&& 0xE000 = op / 8192 % 8 * 8192 :=
  and_shifted_mask op 13 3

theorem mask_FC00 (op : Nat) : op &&& 0xFC00 = op / 1024 % 64 * 1024 :=
  and_shifted_mask op 10 6

theorem mask_F000 (op : Nat) : op &&& 0xF000 = op / 4096 % 16 * 4096 :=
  and_shifted_mask op 12 4

theorem field_shift (op k n : Nat) : (op >>> k) &&& (2 ^ n - 1) = op / 2 ^ k % 2 ^ n := by
  rw [Nat.and_pow_two_sub_one_eq_mod, Nat.shiftRight_eq_div_pow]

/-- A word of the group `11100` runs the unconditional-branch body. -/
theorem exec_thumb_branch (s : CPU) (op : Nat) (h : op &&& 0xF800 = 0xE000) :
    s.exec_thumb op =
      s.setReg CPU.PC (ofInt32 ((s.r CPU.PC : Int) +
        (if (op &&& 0x7FF) &&& 0x400 ≠ 0 then ((op &&& 0x7FF : Nat) : Int) - 2048
         else ((op &&& 0x7FF : Nat) : Int)) * 2)) := by
  have hg : op / 2048 % 32 = 28 := by rw [mask_F800] at h; omega
  have e2 : op &&& 0xE000 = 0xE000 := by rw [mask_E000]; omega
  have e3 : op &&& 0xFC00 ≠ 0x4000 := by rw [mask_FC00]; omega
  have e4 : op &&& 0xF000 = 0xE000 := by rw [mask_F000]; omega
  unfold CPU.exec_thumb
  simp only [h, e2, e4, if_neg e3]
  simp

/-- A word matched by no decode test leaves the state as it is. -/
theorem exec_thumb_noGroup (s : CPU) (op : Nat) (h : noGroup op) : s.exec_thumb op = s := by
  obtain ⟨h1, h2, h3, h4, h5, h6, h7, h8, h9, h10, h11, h12, h13, h14, h15, h16, h17, h18⟩ := h
  unfold CPU.exec_thumb
  rw [if_neg h1, if_neg h2, if_neg h3, if_neg h4, if_neg h5, if_neg h6, if_neg h7, if_neg h8,
    if_neg h9, if_neg h10, if_neg h11, if_neg h12, if_neg h13, if_neg h14, if_neg h15,
    if_neg h16, if_neg h17, if_neg h18]

/-- The words matched by no decode test are exactly six ranges. -/
theorem noGroup_iff (op : Nat) (hop : op < 65536) :
    noGroup op ↔
      ((0x1800 ≤ op ∧ op ≤ 0x1FFF) ∨ (0x4400 ≤ op ∧ op ≤ 0x47FF) ∨
       (0x5000 ≤ op ∧ op ≤ 0x5FFF) ∨ (0x9000 ≤ op ∧ op ≤ 0x9FFF) ∨
       (0xA800 ≤ op ∧ op ≤ 0xCFFF) ∨ (0xE800 ≤ op ∧ op ≤ 0xFFFF)) := by
  unfold noGroup
  simp only [mask_F800, mask_E000, mask_FC00, mask_F000]
  omega

/-! ## Reset -/

/-- C11: `reset()` gives the same register/flag state from every prior state:
    every register is zero except r15 = 0x08000000 (the program-image base) and
    r13 = 0x03007F00, the status word is 0x20 (bit 5 set, the four condition
    flags clear), and resetting twice is the same as resetting once. -/
theorem reset_state (s t : CPU) :
    (∀ i, (s.reset).r i = if i = 15 then 0x08000000 else if i = 13 then 0x03007F00 else 0) ∧
    (s.reset).r CPU.PC = Bus.ROM_BASE ∧
    (s.reset).cpsr = 0x20 ∧
    (s.reset).cpsr.testBit 5 = true ∧
    (s.reset).getN = false ∧ (s.reset).getZ = false ∧
    (s.reset).getC = false ∧ (s.reset).getV = false ∧
    (s.reset).r = (t.reset).r ∧ (s.reset).cpsr = (t.reset).cpsr ∧
    (s.reset).reset = s.reset := by
  have hr : ∀ u : CPU, (u.reset).r =
      fun i => if i = 15 then 0x08000000 else if i = 13 then 0x03007F00 else 0 := by
    intro u
    funext i
    simp only [CPU.reset, CPU.setReg, CPU.PC, CPU.SP]
    by_cases h13 : i = 13
    · subst h13; simp
    · by_cases h15 : i = 15
      · subst h15; simp
      · simp [h13, h15]
  have hc : ∀ u : CPU, (u.reset).cpsr = 0x20 := by
    intro u
    simp [CPU.reset, CPU.setReg]
  refine ⟨fun i => by rw [hr s], by rw [hr s]; rfl, hc s, by rw [hc s]; decide,
    ?_, ?_, ?_, ?_, by rw [hr s, hr t], by rw [hc s, hc t], ?_⟩
  · simp only [CPU.getN, hc s]; decide
  · simp only [CPU.getZ, hc s]; decide
  · simp only [CPU.getC, hc s]; decide
  · simp only [CPU.getV, hc s]; decide
  · rfl

/-! ## Branches -/

theorem or_low_field (k a x : Nat) (h : x < 2 ^ k) : (2 ^ k * a) ||| x = 2 ^ k * a + x :=
  (Nat.mul_add_lt_is_or h a).symm

theorem bit10_iff (x : Nat) : (x &&& 0x400 ≠ 0) ↔ x / 1024 % 2 = 1 := by
  rw [show (0x400 : Nat) = 2 ^ 10 from rfl, and_two_pow_ne_zero, Nat.testBit_to_div_mod]
  simp

/-- The fetch advances the program counter by 2 and touches nothing else. -/
theorem step_frame_pc (s : CPU) : (s.fetch16_pc.2).r CPU.PC = u32 (s.r CPU.PC + 2) ∧
    (∀ i, i ≠ CPU.PC → (s.fetch16_pc.2).r i = s.r i) ∧
    (s.fetch16_pc.2).cpsr = s.cpsr ∧ (s.fetch16_pc.2).bus = s.bus := by
  refine ⟨by simp [CPU.fetch16_pc, CPU.setReg], ?_, rfl, rfl⟩
  intro i hi
  simp [CPU.fetch16_pc, CPU.setReg, hi]

/-- C12: a step that fetches `0xE000 | imm11` ends with
    PC = (PC_before + 2 + 2 * sext11(imm11)) mod 2^32 and changes no other
    register, no status-word bit and nothing on the bus; for imm11 = 0x7FF the
    whole machine state after the step equals the state before it. -/
theorem branch_step (s : CPU) (imm11 : Nat) (h : imm11 < 2048)
    (hfetch : s.fetch16_pc.1 = 0xE000 ||| imm11) :
    ((s.step).r CPU.PC : Int)
      = ((s.r CPU.PC : Int) + 2 + 2 * sext 11 imm11) % 4294967296 ∧
    (∀ i, i ≠ CPU.PC → (s.step).r i = s.r i) ∧
    (s.step).cpsr = s.cpsr ∧ (s.step).bus = s.bus ∧
    (imm11 = 0x7FF → s.r CPU.PC < 4294967296 → s.step = s) := by
  have hop : 0xE000 ||| imm11 = 0xE000 + imm11 := or_low_field 11 28 imm11 h
  have hm : (0xE000 + imm11) &&& 0xF800 = 0xE000 := by rw [mask_F800]; omega
  have hlow : (0xE000 + imm11) &&& 0x7FF = imm11 := by
    rw [show (0x7FF : Nat) = 2 ^ 11 - 1 from rfl, Nat.and_pow_two_sub_one_eq_mod]; omega
  have hstep : s.step = (s.fetch16_pc.2).setReg CPU.PC
      (ofInt32 (((s.fetch16_pc.2).r CPU.PC : Int) + sext 11 imm11 * 2)) := by
    unfold CPU.step
    simp only
    rw [hfetch, hop, exec_thumb_branch _ _ hm, hlow]
    congr 3
    unfold sext
    by_cases hb : imm11 < 1024
    · rw [if_neg (by rw [bit10_iff]; omega), if_pos (by simpa using hb)]
    · rw [if_pos (by rw [bit10_iff]; omega), if_neg (by simpa using hb)]
      norm_num
  obtain ⟨f1, f2, f3, f4⟩ := step_frame_pc s
  have hpc : (s.step).r CPU.PC
      = ofInt32 ((u32 (s.r CPU.PC + 2) : Int) + sext 11 imm11 * 2) := by
    rw [hstep, ← f1]; simp [CPU.setReg]
  refine ⟨?_, ?_, ?_, ?_, ?_⟩
  · rw [hpc]
    unfold ofInt32 u32
    rw [Int.toNat_of_nonneg (Int.emod_nonneg _ (by norm_num))]
    push_cast
    omega
  · intro i hi
    rw [hstep, ← f2 i hi]
    simp [CPU.setReg, hi]
  · rw [hstep]; exact f3
  · rw [hstep]; exact f4
  · intro h7 hlt
    have hv : (s.step).r CPU.PC = s.r CPU.PC := by
      rw [hpc, h7]
      unfold ofInt32 u32 sext
      norm_num
      omega
    have hr : (s.step).r = s.r := by
      funext i
      by_cases hi : i = CPU.PC
      · rw [hi]; exact hv
      · rw [hstep, ← f2 i hi]; simp [CPU.setReg, hi]
    have hc : (s.step).cpsr = s.cpsr := by rw [hstep]; exact f3
    have hb : (s.step).bus = s.bus := by rw [hstep]; exact f4
    have hu : (s.step).ub = s.ub := by rw [hstep]; rfl
    cases hs : s.step with
    | mk r1 c1 b1 u1 =>
      rw [hs] at hr hc hb hu
      cases s with
      | mk r0 c0 b0 u0 =>
        simp only at hr hc hb hu
        rw [hr, hc, hb, hu]


/-- Witness of `branch_step`: the word `0xE7FF` at the start of the program
    image is a fixed point of the machine. -/
theorem branch_step_witness :
    (0x7FF < 2048 ∧ (machineWith 0xE7FF 0 0 0x20).fetch16_pc.1 = 0xE000 ||| 0x7FF) ∧
    (machineWith 0xE7FF 0 0 0x20).step = machineWith 0xE7FF 0 0 0x20 :=
  ⟨by decide,
   (branch_step (machineWith 0xE7FF 0 0 0x20) 0x7FF (by decide) (by decide)).2.2.2.2 rfl
     (by decide)⟩

theorem field_8_4 (op : Nat) : (op >>> 8) &&& 0xF = op / 256 % 16 := field_shift op 8 4

theorem field_8_3 (op : Nat) : (op >>> 8) &&& 0x7 = op / 256 % 8 := field_shift op 8 3

theorem field_6_4 (op : Nat) : (op >>> 6) &&& 0xF = op / 64 % 16 := field_shift op 6 4

theorem field_6_5 (op : Nat) : (op >>> 6) &&& 0x1F = op / 64 % 32 := field_shift op 6 5

theorem field_3_3 (op : Nat) : (op >>> 3) &&& 0x7 = op / 8 % 8 := field_shift op 3 3

theorem low_3 (op : Nat) : op &&& 0x7 = op % 8 := Nat.and_pow_two_sub_one_eq_mod op 3

theorem low_8 (op : Nat) : op &&& 0xFF = op % 256 := Nat.and_pow_two_sub_one_eq_mod op 8

theorem low_11 (op : Nat) : op &&& 0x7FF = op % 2048 := Nat.and_pow_two_sub_one_eq_mod op 11

/-- A word of the group `1101` runs the conditional-branch body. -/
theorem exec_thumb_cond (s : CPU) (op : Nat) (h : op &&& 0xF000 = 0xD000) :
    s.exec_thumb op =
      if (op >>> 8) &&& 0xF = 0xF then s
      else if s.cond_passed ((op >>> 8) &&& 0xF) = true then
        s.setReg CPU.PC (ofInt32 ((s.r CPU.PC : Int) + toInt8 (op &&& 0xFF) * 2))
      else s := by
  have hg : op / 4096 % 16 = 13 := by rw [mask_F000] at h; omega
  have e2 : op &&& 0xE000 = 0xC000 := by rw [mask_E000]; omega
  have e3 : op &&& 0xFC00 ≠ 0x4000 := by rw [mask_FC00]; omega
  unfold CPU.exec_thumb
  by_cases hb : op / 2048 % 2 = 0
  · have e1 : op &&& 0xF800 = 0xD000 := by rw [mask_F800]; omega
    simp only [e1, e2, h, if_neg e3]
    simp
  · have e1 : op &&& 0xF800 = 0xD800 := by rw [mask_F800]; omega
    simp only [e1, e2, h, if_neg e3]
    simp

set_option maxRecDepth 1000000 in
theorem cond_word_eq : ∀ cond : Fin 16, ∀ imm : Fin 256,
    0xD000 ||| cond.val <<< 8 ||| imm.val = 0xD000 + cond.val * 256 + imm.val := by decide

/-- On the codes 0x0-0xD `cond_passed` is the condition table. -/
theorem cond_passed_eq (s : CPU) (cond : Nat) (h : cond ≤ 0xD) :
    s.cond_passed cond = condHolds cond s.getN s.getZ s.getC s.getV := by
  interval_cases cond <;> rfl

/-- A fetched instruction word is a halfword. -/
theorem fetch_lt (s : CPU) : s.fetch16_pc.1 < 65536 := by
  simp only [CPU.fetch16_pc, CPU.fetch16]
  cases s.bus with
  | none => simp
  | some b => exact Nat.mod_lt _ (by decide)

/-- C13: a step that fetches `0xD000 | cond<<8 | imm8` with cond in 0x0..0xD
    ends with PC = (PC_before + 2 + 2 * sext8(imm8)) mod 2^32 when the condition
    of the table holds on the current flags and with PC advanced by 2 (in 32
    bits) otherwise; with cond = 0xF it only advances PC by 2. No other
    register, no status-word bit and nothing on the bus changes. -/
theorem cond_branch_step (s : CPU) (cond imm8 : Nat) (hc : cond ≤ 0xD ∨ cond = 0xF)
    (hi : imm8 < 256) (hfetch : s.fetch16_pc.1 = 0xD000 ||| cond <<< 8 ||| imm8) :
    ((s.step).r CPU.PC : Int)
      = (if cond ≠ 0xF ∧ condHolds cond s.getN s.getZ s.getC s.getV = true
         then ((s.r CPU.PC : Int) + 2 + 2 * sext 8 imm8) % 4294967296
         else ((s.r CPU.PC : Int) + 2) % 4294967296) ∧
    (∀ i, i ≠ CPU.PC → (s.step).r i = s.r i) ∧
    (s.step).cpsr = s.cpsr ∧ (s.step).bus = s.bus := by
  have hc16 : cond < 16 := by omega
  have hop := cond_word_eq ⟨cond, hc16⟩ ⟨imm8, hi⟩
  simp only at hop
  have hm : (0xD000 + cond * 256 + imm8) &&& 0xF000 = 0xD000 := by rw [mask_F000]; omega
  have hcf : ((0xD000 + cond * 256 + imm8) >>> 8) &&& 0xF = cond := by
    rw [field_8_4]; omega
  have hlow : (0xD000 + cond * 256 + imm8) &&& 0xFF = imm8 := by
    rw [low_8]; omega
  obtain ⟨f1, f2, f3, f4⟩ := step_frame_pc s
  have hstep : s.step =
      if cond = 0xF then s.fetch16_pc.2
      else if (s.fetch16_pc.2).cond_passed cond = true then
        (s.fetch16_pc.2).setReg CPU.PC
          (ofInt32 (((s.fetch16_pc.2).r CPU.PC : Int) + toInt8 imm8 * 2))
      else s.fetch16_pc.2 := by
    unfold CPU.step
    simp only
    rw [hfetch, hop, exec_thumb_cond _ _ hm, hcf, hlow]
  have hcp : (s.fetch16_pc.2).cond_passed cond = s.cond_passed cond := rfl
  have hsx : toInt8 imm8 = sext 8 imm8 := by
    unfold toInt8 sext; norm_num
  have hadv : (((s.fetch16_pc.2).r CPU.PC : Nat) : Int) = ((s.r CPU.PC : Int) + 2) % 4294967296 := by
    rw [f1]; unfold u32; push_cast; rfl
  rw [hcp, f1, hsx] at hstep
  by_cases h15 : cond = 0xF
  · rw [if_pos h15] at hstep
    rw [hstep, if_neg (by simp [h15])]
    exact ⟨hadv, f2, f3, f4⟩
  · have hle : cond ≤ 0xD := by omega
    rw [if_neg h15, cond_passed_eq s cond hle] at hstep
    by_cases hh : condHolds cond s.getN s.getZ s.getC s.getV = true
    · rw [if_pos hh] at hstep
      rw [hstep, if_pos ⟨h15, hh⟩]
      refine ⟨?_, ?_, f3, f4⟩
      · simp only [CPU.setReg, if_true]
        unfold ofInt32 u32
        rw [Int.toNat_of_nonneg (Int.emod_nonneg _ (by norm_num))]
        push_cast
        omega
      · intro i hi
        rw [← f2 i hi]
        simp [CPU.setReg, hi]
    · rw [if_neg hh] at hstep
      rw [hstep, if_neg (by simp [hh])]
      exact ⟨hadv, f2, f3, f4⟩

/-- Witness of `cond_branch_step`: BNE with offset -2 is taken when Zero is
    clear, not taken when Zero is set, and the reserved code 0xF only advances. -/
theorem cond_branch_step_witness :
    ((1 ≤ 0xD ∨ 1 = 0xF) ∧ 0xFE < 256 ∧
      (machineWith 0xD1FE 0 0 0x20).fetch16_pc.1 = 0xD000 ||| 1 <<< 8 ||| 0xFE) ∧
    ((machineWith 0xD1FE 0 0 0x20).step).cpsr = (machineWith 0xD1FE 0 0 0x20).cpsr ∧
    ((machineWith 0xD1FE 0 0 0x20).step).r 15 = 0x07FFFFFE ∧
    ((machineWith 0xD1FE 0 0 0x40000020).step).r 15 = 0x08000002 ∧
    ((machineWith 0xDFFE 0 0 0x20).step).r 15 = 0x08000002 :=
  ⟨by decide,
   (cond_branch_step (machineWith 0xD1FE 0 0 0x20) 1 0xFE (by decide) (by decide)
      (by decide)).2.2.1,
   by decide⟩

/-- C18: a step that fetches a word matched by no decode test (equivalently, a
    word in 0x1800-0x1FFF, 0x4400-0x47FF, 0x5000-0x5FFF, 0x9000-0x9FFF,
    0xA800-0xCFFF or 0xE800-0xFFFF) advances PC by 2 and changes no other
    register, no status-word bit and nothing on the bus. -/
theorem unrecognized_step (s : CPU) (op : Nat) (hfetch : s.fetch16_pc.1 = op)
    (h : noGroup op ∨
      ((0x1800 ≤ op ∧ op ≤ 0x1FFF) ∨ (0x4400 ≤ op ∧ op ≤ 0x47FF) ∨
       (0x5000 ≤ op ∧ op ≤ 0x5FFF) ∨ (0x9000 ≤ op ∧ op ≤ 0x9FFF) ∨
       (0xA800 ≤ op ∧ op ≤ 0xCFFF) ∨ (0xE800 ≤ op ∧ op ≤ 0xFFFF))) :
    (s.step).r CPU.PC = u32 (s.r CPU.PC + 2) ∧
    (∀ i, i ≠ CPU.PC → (s.step).r i = s.r i) ∧
    (s.step).cpsr = s.cpsr ∧ (s.step).bus = s.bus ∧
    noGroup op ∧
    ((0x1800 ≤ op ∧ op ≤ 0x1FFF) ∨ (0x4400 ≤ op ∧ op ≤ 0x47FF) ∨
     (0x5000 ≤ op ∧ op ≤ 0x5FFF) ∨ (0x9000 ≤ op ∧ op ≤ 0x9FFF) ∨
     (0xA800 ≤ op ∧ op ≤ 0xCFFF) ∨ (0xE800 ≤ op ∧ op ≤ 0xFFFF)) := by
  have hop : op < 65536 := by rw [← hfetch]; exact fetch_lt s
  have hiff := noGroup_iff op hop
  have hng : noGroup op := h.elim id hiff.mpr
  have hstep : s.step = s.fetch16_pc.2 := by
    unfold CPU.step
    simp only
    rw [hfetch, exec_thumb_noGroup _ _ hng]
  obtain ⟨f1, f2, f3, f4⟩ := step_frame_pc s
  rw [hstep]
  exact ⟨f1, f2, f3, f4, hng, hiff.mp hng⟩

/-- Witness of `unrecognized_step` at the word `0x5000`. -/
theorem unrecognized_step_witness :
    (machineWith 0x5000 7 9 0x20).fetch16_pc.1 = 0x5000 ∧
    ((machineWith 0x5000 7 9 0x20).step).r CPU.PC = u32 (0x08000000 + 2) ∧
    ((machineWith 0x5000 7 9 0x20).step).cpsr = 0x20 :=
  ⟨by decide,
   (unrecognized_step (machineWith 0x5000 7 9 0x20) 0x5000 (by decide)
      (Or.inr (by decide))).1,
   (unrecognized_step (machineWith 0x5000 7 9 0x20) 0x5000 (by decide)
      (Or.inr (by decide))).2.2.1⟩

/-! ## Shifter rules -/


/-- Testing `x & (1 << k)` against zero reads bit `k` of `x`. -/
theorem decide_and_one_shift (x k : Nat) :
    decide (x &&& (1 <<< k) ≠ 0) = x.testBit k := by
  rw [Nat.one_shiftLeft]
  by_cases h : x.testBit k = true
  · rw [h]; exact decide_eq_true ((and_two_pow_ne_zero x k).mpr h)
  · have hf : x.testBit k = false := by simpa using h
    rw [hf]; exact decide_eq_false (fun hc => h ((and_two_pow_ne_zero x k).mp hc))

theorem decide_bit0 (x : Nat) : decide (x &&& 1 ≠ 0) = x.testBit 0 :=
  decide_and_one_shift x 0

theorem decide_bit31 (x : Nat) : decide (x &&& 0x80000000 ≠ 0) = x.testBit 31 :=
  decide_and_one_shift x 31

/-- C14: for every value v, incoming carry c and amount a, `lsl_c` and `lsr_c`
    return v with carry c when a = 0; for 1 <= a <= 31 they return
    (v * 2^a) mod 2^32 with carry bit (32 - a) of v, respectively floor(v / 2^a)
    with carry bit (a - 1) of v; for a = 32 they return 0 with carry bit 0,
    respectively bit 31, of v; for a > 32 they return 0 with carry false. The
    shift-by-register sub-operations 0x2 and 0x3 call them with the low byte of
    Rs as amount and the Carry flag as incoming carry. -/
theorem lsl_lsr_rules (v a : Nat) (c : Bool) :
    CPU.lsl_c v a c =
      (if a = 0 then (v, c)
       else if a ≤ 31 then ((v * 2 ^ a) % 4294967296, v.testBit (32 - a))
       else if a = 32 then (0, v.testBit 0)
       else (0, false)) ∧
    CPU.lsr_c v a c =
      (if a = 0 then (v, c)
       else if a ≤ 31 then (v / 2 ^ a, v.testBit (a - 1))
       else if a = 32 then (0, v.testBit 31)
       else (0, false)) ∧
    (∀ (s : CPU) (rs rd : Nat), s.exec_alu 0x2 rs rd =
      (s.setLogicNZC (CPU.lsl_c (s.r rd) (s.r rs &&& 0xFF) s.getC).1
        (CPU.lsl_c (s.r rd) (s.r rs &&& 0xFF) s.getC).2).setReg rd
        (CPU.lsl_c (s.r rd) (s.r rs &&& 0xFF) s.getC).1) ∧
    (∀ (s : CPU) (rs rd : Nat), s.exec_alu 0x3 rs rd =
      (s.setLogicNZC (CPU.lsr_c (s.r rd) (s.r rs &&& 0xFF) s.getC).1
        (CPU.lsr_c (s.r rd) (s.r rs &&& 0xFF) s.getC).2).setReg rd
        (CPU.lsr_c (s.r rd) (s.r rs &&& 0xFF) s.getC).1) := by
  refine ⟨?_, ?_, fun _ _ _ => rfl, fun _ _ _ => rfl⟩
  · unfold CPU.lsl_c u32
    by_cases h0 : a = 0
    · rw [if_pos h0, if_pos h0]
    · rw [if_neg h0, if_neg h0]
      by_cases h1 : a < 32
      · rw [if_pos h1, if_pos (show a ≤ 31 by omega), decide_and_one_shift, Nat.shiftLeft_eq]
      · rw [if_neg h1, if_neg (show ¬ a ≤ 31 by omega), decide_bit0]
  · unfold CPU.lsr_c
    by_cases h0 : a = 0
    · rw [if_pos h0, if_pos h0]
    · rw [if_neg h0, if_neg h0]
      by_cases h1 : a < 32
      · rw [if_pos h1, if_pos (show a ≤ 31 by omega), decide_and_one_shift,
          Nat.shiftRight_eq_div_pow]
      · rw [if_neg h1, if_neg (show ¬ a ≤ 31 by omega), decide_bit31]

theorem pow_split (a : Nat) (h : a ≤ 32) : 2 ^ a * 2 ^ (32 - a) = 4294967296 := by
  rw [← Nat.pow_add, show a + (32 - a) = 32 by omega]

theorem sign_fill (a : Nat) (h1 : a ≤ 32) :
    not32 (0xFFFFFFFF >>> a) = 2 ^ (32 - a) * (2 ^ a - 1) := by
  apply Nat.eq_of_testBit_eq
  intro i
  rw [testBit_not32, Nat.testBit_shiftRight, show (0xFFFFFFFF : Nat) = 2 ^ 32 - 1 from rfl,
    Nat.testBit_two_pow_sub_one, Nat.testBit_mul_pow_two, Nat.testBit_two_pow_sub_one]
  by_cases hi : i < 32 <;> by_cases ha : a + i < 32 <;> simp [hi, ha] <;> omega

/-- The arithmetic-right rules on the function `asr_c` alone. -/
theorem asr_c_eq (v a : Nat) (c : Bool) (hv : v < 4294967296) :
    CPU.asr_c v a c =
      (if a = 0 then (v, c)
       else if a ≤ 31 then (ofInt32 (Int.fdiv (toInt32 v) (2 ^ a)), v.testBit (a - 1))
       else (if v.testBit 31 = true then 0xFFFFFFFF else 0, v.testBit 31)) := by
  unfold CPU.asr_c
  by_cases h0 : a = 0
  · rw [if_pos h0, if_pos h0]
  · rw [if_neg h0, if_neg h0]
    by_cases h1 : a < 32
    · rw [if_pos h1, if_pos (by omega), decide_and_one_shift]
      have hpq := pow_split a (by omega)
      have hQ : 0 < 2 ^ a := Nat.two_pow_pos a
      have hP : 0 < 2 ^ (32 - a) := Nat.two_pow_pos _
      have hd : v / 2 ^ a < 2 ^ (32 - a) := Nat.div_lt_of_lt_mul (by rw [hpq]; exact hv)
      have hQi : (0 : Int) ≤ 2 ^ a := by positivity
      rw [Int.fdiv_eq_ediv _ hQi, Nat.shiftRight_eq_div_pow]
      simp only
      have hb : (v &&& 0x80000000 ≠ 0) ↔ 2147483648 ≤ v := by
        rw [bit31_iff, testBit31_eq v hv]; simp
      unfold toInt32 ofInt32
      by_cases hs : 2147483648 ≤ v
      · rw [if_pos (hb.mpr hs), if_neg (show ¬ v < 2147483648 by omega),
          sign_fill a (by omega), Nat.lor_comm, ← Nat.mul_add_lt_is_or hd]
        have hdiv : ((v : Int) - 4294967296) / 2 ^ a
            = ((v / 2 ^ a : Nat) : Int) - ((2 ^ (32 - a) : Nat) : Int) := by
          have e : ((v : Int) - 4294967296) = (v : Int) + (-((2 ^ (32 - a) : Nat) : Int)) * 2 ^ a := by
            have : ((2 ^ a * 2 ^ (32 - a) : Nat) : Int) = 4294967296 := by rw [hpq]; rfl
            push_cast at this ⊢
            linarith
          rw [e, Int.add_mul_ediv_right _ _ (by positivity)]
          push_cast
          ring
        rw [hdiv]
        have hmul : 2 ^ (32 - a) * (2 ^ a - 1) = 4294967296 - 2 ^ (32 - a) := by
          rw [Nat.mul_sub, Nat.mul_one, Nat.mul_comm, hpq]
        rw [hmul]
        have hle : 2 ^ (32 - a) ≤ 4294967296 := by
          rw [← hpq]; exact Nat.le_mul_of_pos_left _ hQ
        refine congrArg (fun x => (x, v.testBit (a - 1))) ?_
        generalize 2 ^ (32 - a) = P at *
        generalize v / 2 ^ a = D at *
        omega
      · rw [if_neg (fun hc => hs (hb.mp hc)), if_pos (show v < 2147483648 by omega)]
        have hdiv : ((v : Int)) / 2 ^ a = ((v / 2 ^ a : Nat) : Int) := by
          push_cast; rfl
        rw [hdiv, Nat.or_zero]
        have hle : 2 ^ (32 - a) ≤ 4294967296 := by
          rw [← hpq]; exact Nat.le_mul_of_pos_left _ hQ
        refine congrArg (fun x => (x, v.testBit (a - 1))) ?_
        generalize 2 ^ (32 - a) = P at *
        generalize v / 2 ^ a = D at *
        omega
    · rw [if_neg h1, if_neg (show ¬ a ≤ 31 by omega), decide_bit31]
      by_cases hs : v.testBit 31 = true
      · rw [if_pos ((bit31_iff v).mpr hs), if_pos hs]
      · rw [if_neg (fun hc => hs ((bit31_iff v).mp hc)), if_neg hs]

/-- The rotation of a 32-bit value by `k` in 1..31, as a sum of its two parts. -/
theorem rotate_right_eq (v k : Nat) (hv : v < 4294967296) (hk : k < 32) :
    rotate_right v k = v / 2 ^ k + (v % 2 ^ k) * 2 ^ (32 - k) := by
  unfold rotate_right u32
  have hk31 : k &&& 31 = k := by
    rw [show (31 : Nat) = 2 ^ 5 - 1 from rfl, Nat.and_pow_two_sub_one_eq_mod]
    exact Nat.mod_eq_of_lt hk
  simp only [hk31]
  have hpq := pow_split k (by omega)
  have hd : v / 2 ^ k < 2 ^ (32 - k) := Nat.div_lt_of_lt_mul (by rw [hpq]; exact hv)
  rw [Nat.shiftRight_eq_div_pow, Nat.shiftLeft_eq, ← hpq, Nat.mul_mod_mul_right,
    Nat.lor_comm, Nat.mul_comm (v % 2 ^ k), ← Nat.mul_add_lt_is_or hd, Nat.add_comm]

/-- The rotate-right rules on the function `ror_c` alone. -/
theorem ror_c_eq (v a : Nat) (c : Bool) (hv : v < 4294967296) :
    CPU.ror_c v a c =
      (if a % 32 = 0 then (v, c)
       else (v / 2 ^ (a % 32) + (v % 2 ^ (a % 32)) * 2 ^ (32 - a % 32),
             v.testBit (a % 32 - 1))) ∧
    (a % 32 ≠ 0 →
      (v / 2 ^ (a % 32) + (v % 2 ^ (a % 32)) * 2 ^ (32 - a % 32)).testBit 31
        = v.testBit (a % 32 - 1)) := by
  have ha : a &&& 31 = a % 32 := by
    rw [show (31 : Nat) = 2 ^ 5 - 1 from rfl, Nat.and_pow_two_sub_one_eq_mod]
  have hk : a % 32 < 32 := Nat.mod_lt _ (by decide)
  generalize a % 32 = k at *
  have hbit : k ≠ 0 →
      (v / 2 ^ k + (v % 2 ^ k) * 2 ^ (32 - k)).testBit 31 = v.testBit (k - 1) := by
    intro h0
    have hpq := pow_split k (by omega)
    have hd : v / 2 ^ k < 2 ^ (32 - k) := Nat.div_lt_of_lt_mul (by rw [hpq]; exact hv)
    rw [Nat.add_comm, Nat.mul_comm, Nat.testBit_mul_pow_two_add _ hd,
      if_neg (show ¬ 31 < 32 - k by omega), Nat.testBit_mod_two_pow,
      show 31 - (32 - k) = k - 1 by omega]
    simp
    intro _
    omega
  refine ⟨?_, hbit⟩
  unfold CPU.ror_c
  simp only [ha]
  by_cases h0 : k = 0
  · rw [if_pos h0, if_pos h0]
  · rw [if_neg h0, if_neg h0, decide_bit31, rotate_right_eq v k hv hk, hbit h0]


/-- C15: for every 32-bit v, incoming carry c and amount a, `asr_c` returns v
    with carry c when a = 0; for 1 <= a <= 31 the 32-bit two's-complement
    encoding of floor(signed(v) / 2^a) with carry bit (a - 1) of v; for a >= 32
    the value 0xFFFFFFFF if bit 31 of v is set and 0 otherwise, with carry
    bit 31 of v. The sub-operation 0x4 calls it with the low byte of Rs. -/
theorem asr_rules (v a : Nat) (c : Bool) (hv : v < 4294967296) :
    CPU.asr_c v a c =
      (if a = 0 then (v, c)
       else if a ≤ 31 then (ofInt32 (Int.fdiv (toInt32 v) (2 ^ a)), v.testBit (a - 1))
       else (if v.testBit 31 = true then 0xFFFFFFFF else 0, v.testBit 31)) ∧
    (∀ (s : CPU) (rs rd : Nat), s.exec_alu 0x4 rs rd =
      (s.setLogicNZC (CPU.asr_c (s.r rd) (s.r rs &&& 0xFF) s.getC).1
        (CPU.asr_c (s.r rd) (s.r rs &&& 0xFF) s.getC).2).setReg rd
        (CPU.asr_c (s.r rd) (s.r rs &&& 0xFF) s.getC).1) :=
  ⟨asr_c_eq v a c hv, fun _ _ _ => rfl⟩

/-- Witness of `asr_rules`: 0x80000001 shifted right by 1 keeps its sign and
    shifts bit 0 out into the carry. -/
theorem asr_rules_witness :
    0x80000001 < 4294967296 ∧ CPU.asr_c 0x80000001 1 false = (0xC0000000, true) ∧
    CPU.asr_c 0x80000001 1 false =
      (if 1 = 0 then (0x80000001, false)
       else if 1 ≤ 31 then
         (ofInt32 (Int.fdiv (toInt32 0x80000001) (2 ^ 1)), Nat.testBit 0x80000001 (1 - 1))
       else (if Nat.testBit 0x80000001 31 = true then 0xFFFFFFFF else 0,
             Nat.testBit 0x80000001 31)) :=
  ⟨by decide, by decide, (asr_rules 0x80000001 1 false (by decide)).1⟩

/-- C16: for every 32-bit v, incoming carry c and amount a, `ror_c` reduces a
    modulo 32 to k; if k = 0 it returns v with carry c, otherwise the rotation
    floor(v / 2^k) + (v mod 2^k) * 2^(32 - k) with carry bit (k - 1) of v, which
    is bit 31 of the result. The sub-operation 0x7 calls it with the low byte
    of Rs. -/
theorem ror_rules (v a : Nat) (c : Bool) (hv : v < 4294967296) :
    CPU.ror_c v a c =
      (if a % 32 = 0 then (v, c)
       else (v / 2 ^ (a % 32) + (v % 2 ^ (a % 32)) * 2 ^ (32 - a % 32),
             v.testBit (a % 32 - 1))) ∧
    (a % 32 ≠ 0 →
      (v / 2 ^ (a % 32) + (v % 2 ^ (a % 32)) * 2 ^ (32 - a % 32)).testBit 31
        = v.testBit (a % 32 - 1)) ∧
    (∀ (s : CPU) (rs rd : Nat), s.exec_alu 0x7 rs rd =
      (s.setLogicNZC (CPU.ror_c (s.r rd) (s.r rs &&& 0xFF) s.getC).1
        (CPU.ror_c (s.r rd) (s.r rs &&& 0xFF) s.getC).2).setReg rd
        (CPU.ror_c (s.r rd) (s.r rs &&& 0xFF) s.getC).1) :=
  ⟨(ror_c_eq v a c hv).1, (ror_c_eq v a c hv).2, fun _ _ _ => rfl⟩

/-- Witness of `ror_rules`: rotating 0x00000003 by 33 (reduced to 1) gives
    0x80000001 with carry set. -/
theorem ror_rules_witness :
    0x00000003 < 4294967296 ∧ CPU.ror_c 0x00000003 33 false = (0x80000001, true) ∧
    CPU.ror_c 0x00000003 33 false =
      (if 33 % 32 = 0 then (0x00000003, false)
       else (0x00000003 / 2 ^ (33 % 32) + (0x00000003 % 2 ^ (33 % 32)) * 2 ^ (32 - 33 % 32),
             Nat.testBit 0x00000003 (33 % 32 - 1))) :=
  ⟨by decide, by decide, (ror_rules 0x00000003 33 false (by decide)).1⟩

/-! ## Byte write into the display surface -/


/-- C17: with the display surface attached, for every odd address inside the
    display-surface region and every byte v, `write8(addr, v)` changes the cell
    at index (addr - 0x06000000) >> 1 from old to (old & 0x00FF) | (v << 8), so
    its lower 8 bits are unchanged, and leaves every other display cell, the
    working memory and the program image unchanged. -/
theorem write8_odd_vram (b : Bus) (p : PPU) (addr v : Nat) (hp : b.ppu = some p)
    (h1 : Bus.VRAM_BASE ≤ addr) (h2 : addr < Bus.VRAM_BASE + Bus.VRAM_SIZE)
    (hodd : addr % 2 = 1) (hv : v < 256) :
    ∃ q : PPU, (b.write8 addr v).ppu = some q ∧
      q.vram ((addr - 0x06000000) >>> 1)
        = (p.vram ((addr - 0x06000000) >>> 1) &&& 0x00FF) ||| (v <<< 8) ∧
      q.vram ((addr - 0x06000000) >>> 1) &&& 0xFF
        = p.vram ((addr - 0x06000000) >>> 1) &&& 0xFF ∧
      (∀ j, j ≠ (addr - 0x06000000) >>> 1 → q.vram j = p.vram j) ∧
      (b.write8 addr v).wram = b.wram ∧ (b.write8 addr v).cart = b.cart := by
  have hw : b.write8 addr v =
      { b with ppu := some { p with vram := fun i =>
          (if i = (addr - 0x06000000) >>> 1 then
            ((p.vram ((addr - 0x06000000) >>> 1) &&& 0x00FF) ||| (v <<< 8)) % 65536
           else p.vram i) } } := by
    unfold Bus.write8
    rw [if_pos ⟨h1, h2⟩]
    simp only [hp, Bus.VRAM_BASE, Nat.and_one_is_mod] at h1 ⊢
    rw [if_pos (show (addr - 100663296) % 2 ≠ 0 by omega)]
  have hlt : (p.vram ((addr - 0x06000000) >>> 1) &&& 0x00FF) ||| (v <<< 8) < 65536 := by
    apply @Nat.or_lt_two_pow _ _ 16
    · exact Nat.lt_of_le_of_lt Nat.and_le_right (by decide)
    · rw [Nat.shiftLeft_eq]; omega
  have hlow : ((p.vram ((addr - 0x06000000) >>> 1) &&& 0x00FF) ||| (v <<< 8)) &&& 0xFF
      = p.vram ((addr - 0x06000000) >>> 1) &&& 0xFF := by
    rw [Nat.and_distrib_right, Nat.and_assoc, Nat.and_self, low_8 (v <<< 8), Nat.shiftLeft_eq,
      show v * 2 ^ 8 % 256 = 0 by omega, Nat.or_zero]
  rw [hw]
  refine ⟨_, rfl, ?_, ?_, ?_, rfl, rfl⟩
  · simp only [if_true]
    exact Nat.mod_eq_of_lt hlt
  · simp only [if_true]
    rw [Nat.mod_eq_of_lt hlt]
    exact hlow
  · intro j hj
    simp only [if_neg hj]


/-- Witness of `write8_odd_vram`: the byte 0xAB written at `0x06000001` on the
    blank bus. -/
theorem write8_odd_vram_witness :
    (blankBus.ppu = some { vram := fun _ => 0 } ∧ Bus.VRAM_BASE ≤ 0x06000001 ∧
      0x06000001 < Bus.VRAM_BASE + Bus.VRAM_SIZE ∧ 0x06000001 % 2 = 1 ∧ 0xAB < 256) ∧
    (blankBus.write8 0x06000001 0xAB).read16 0x06000000 = 0xAB00 ∧
    ∃ q : PPU, (blankBus.write8 0x06000001 0xAB).ppu = some q ∧
      q.vram ((0x06000001 - 0x06000000) >>> 1)
        = ((PPU.mk (fun _ => 0)).vram ((0x06000001 - 0x06000000) >>> 1) &&& 0x00FF)
            ||| (0xAB <<< 8) ∧
      q.vram ((0x06000001 - 0x06000000) >>> 1) &&& 0xFF
        = (PPU.mk (fun _ => 0)).vram ((0x06000001 - 0x06000000) >>> 1) &&& 0xFF ∧
      (∀ j, j ≠ (0x06000001 - 0x06000000) >>> 1 → q.vram j = (PPU.mk (fun _ => 0)).vram j) ∧
      (blankBus.write8 0x06000001 0xAB).wram = blankBus.wram ∧
      (blankBus.write8 0x06000001 0xAB).cart = blankBus.cart :=
  ⟨⟨rfl, by decide, by decide, by decide, by decide⟩, by decide,
   write8_odd_vram blankBus (PPU.mk (fun _ => 0)) 0x06000001 0xAB rfl (by decide) (by decide)
     (by decide) (by decide)⟩

/-! ## Write-back of the two-register ALU group -/

/-- Row 0x9 of the two-register ALU group leaves the registers, the status
    word and the bus of a negation that wraps, and marks the state `ub` where
    the signed negation of the source overflows. -/
theorem exec_alu_neg (s : CPU) (rs rd : Nat) :
    (s.exec_alu 0x9 rs rd).r =
      (fun j => if j = rd then ofInt32 (-(toInt32 (s.r rs))) else s.r j) ∧
    (s.exec_alu 0x9 rs rd).cpsr =
      (s.setAddNZCV 0 (u32 (not32 (s.r rs) + 1)) (ofInt32 (-(toInt32 (s.r rs))))).cpsr ∧
    (s.exec_alu 0x9 rs rd).bus = s.bus ∧
    (s.exec_alu 0x9 rs rd).ub = (neg_overflows (s.r rs) || s.ub) := by
  show CPU.r (if neg_overflows (s.r rs) = true then _ else _) = _ ∧
    CPU.cpsr (if neg_overflows (s.r rs) = true then _ else _) = _ ∧
    CPU.bus (if neg_overflows (s.r rs) = true then _ else _) = _ ∧
    CPU.ub (if neg_overflows (s.r rs) = true then _ else _) = _
  cases neg_overflows (s.r rs)
  · exact ⟨rfl, rfl, rfl, rfl⟩
  · exact ⟨rfl, rfl, rfl, rfl⟩

/-- Registers and bus after the two-register ALU group. -/
theorem exec_alu_regs (s : CPU) (subop rs rd : Nat) (h : subop < 16) :
    (s.exec_alu subop rs rd).r =
      (if subop = 0x8 ∨ subop = 0xA ∨ subop = 0xB then s.r
       else fun j => if j = rd then s.alu_res subop rs rd else s.r j) ∧
    (s.exec_alu subop rs rd).bus = s.bus := by
  interval_cases subop
  case «9» =>
    obtain ⟨e1, _, e3, _⟩ := exec_alu_neg s rs rd
    exact ⟨e1, e3⟩
  all_goals exact ⟨rfl, rfl⟩

/-- The ALU result does not depend on the program counter advance. -/
theorem alu_res_fetch (s : CPU) (subop rs rd : Nat) (h2 : rs < 8) (h3 : rd < 8) :
    (s.fetch16_pc.2).alu_res subop rs rd = s.alu_res subop rs rd := by
  obtain ⟨_, f2, _, _⟩ := step_frame_pc s
  have e1 : (s.fetch16_pc.2).r rd = s.r rd := f2 rd (by simp only [CPU.PC]; omega)
  have e2 : (s.fetch16_pc.2).r rs = s.r rs := f2 rs (by simp only [CPU.PC]; omega)
  have e3 : (s.fetch16_pc.2).getC = s.getC := rfl
  unfold CPU.alu_res
  simp only [e1, e2, e3]

/-- C19: a step that fetches the two-register ALU word
    `0x4000 | subop<<6 | rs<<3 | rd` advances PC by 2; for TST (0x8), CMP (0xA)
    and CMN (0xB) no other register changes; for each of the other 13
    sub-operations the computed result is written to Rd and no register other
    than Rd and PC changes. -/
theorem alu_writeback (s : CPU) (subop rs rd : Nat) (h1 : subop < 16) (h2 : rs < 8)
    (h3 : rd < 8) (hfetch : s.fetch16_pc.1 = 0x4000 ||| subop <<< 6 ||| rs <<< 3 ||| rd) :
    (s.step).r CPU.PC = u32 (s.r CPU.PC + 2) ∧
    (s.step).bus = s.bus ∧
    (if subop = 0x8 ∨ subop = 0xA ∨ subop = 0xB then
       ∀ i, i ≠ CPU.PC → (s.step).r i = s.r i
     else
       (s.step).r rd = s.alu_res subop rs rd ∧
       ∀ i, i ≠ rd → i ≠ CPU.PC → (s.step).r i = s.r i) := by
  have hstep : s.step = (s.fetch16_pc.2).exec_alu subop rs rd := by
    unfold CPU.step
    simp only
    rw [hfetch, exec_thumb_alu _ subop rs rd h1 h2 h3]
  obtain ⟨f1, f2, f3, f4⟩ := step_frame_pc s
  obtain ⟨hr, hb⟩ := exec_alu_regs (s.fetch16_pc.2) subop rs rd h1
  have hne : rd ≠ CPU.PC := by simp only [CPU.PC]; omega
  rw [hstep, hr, hb, alu_res_fetch s subop rs rd h2 h3]
  by_cases hflag : subop = 0x8 ∨ subop = 0xA ∨ subop = 0xB
  · rw [if_pos hflag, if_pos hflag]
    exact ⟨f1, f4, f2⟩
  · rw [if_neg hflag, if_neg hflag]
    refine ⟨?_, f4, ?_, ?_⟩
    · simp only [if_neg (Ne.symm hne)]
      exact f1
    · simp only [if_true]
    · intro i hi hpc
      simp only [if_neg hi]
      exact f2 i hpc

/-- Witness of `alu_writeback`: ORR r0, r1 writes 0xF0 | 0x0F into r0, while
    TST r0, r1 leaves r0 as it was. -/
theorem alu_writeback_witness :
    (0xC < 16 ∧ 1 < 8 ∧ 0 < 8 ∧
      (machineWith 0x4308 0xF0 0x0F 0x20).fetch16_pc.1
        = 0x4000 ||| 0xC <<< 6 ||| 1 <<< 3 ||| 0) ∧
    ((machineWith 0x4308 0xF0 0x0F 0x20).step).r CPU.PC = u32 (0x08000000 + 2) ∧
    ((machineWith 0x4308 0xF0 0x0F 0x20).step).r 0 = 0xFF ∧
    ((machineWith 0x4208 0xF0 0x0F 0x20).step).r 0 = 0xF0 :=
  ⟨by decide,
   (alu_writeback (machineWith 0x4308 0xF0 0x0F 0x20) 0xC 1 0 (by decide) (by decide)
      (by decide) (by decide)).1,
   by decide⟩


/-! ## Default values of bus reads -/

/-- A byte read outside the three regions returns 0. -/
theorem read8_unmapped (b : Bus) (addr : Nat) (h : Bus.unmapped addr) : b.read8 addr = 0 := by
  unfold Bus.read8
  rw [if_neg h.1, if_neg h.2.1, if_neg h.2.2]

/-- A byte read in the program-image window past the image end returns 0xFF. -/
theorem read8_pastImage (b : Bus) (addr : Nat) (h : b.pastImage addr) :
    b.read8 addr = 0xFF := by
  obtain ⟨hin, hlen⟩ := h
  have hv : ¬ (Bus.VRAM_BASE ≤ addr ∧ addr < Bus.VRAM_BASE + Bus.VRAM_SIZE) := by
    simp only [Bus.VRAM_BASE, Bus.VRAM_SIZE, Bus.ROM_BASE, Bus.ROM_SIZE] at hin ⊢
    omega
  unfold Bus.read8
  rw [if_neg hv, if_pos hin]
  unfold Bus.imageLength at hlen
  cases hc : b.cart with
  | none => rfl
  | some c =>
    rw [hc] at hlen
    simp only at hlen ⊢
    by_cases he : c.rom.isEmpty = true
    · rw [if_pos he]
    · rw [if_neg he, if_neg (show ¬ addr - Bus.ROM_BASE < c.rom.length by omega)]

/-- C20: `read8` returns 0 outside the three regions and 0xFF inside the
    program-image window at or beyond the loaded image length (also with no or
    an empty image); `read16` and `read32` are the little-endian composition of
    the byte reads, so they return 0 when every byte they cover is unmapped and
    0xFFFF / 0xFFFFFFFF when every byte they cover is past the image end. -/
theorem read_defaults (b : Bus) (addr : Nat) :
    (Bus.unmapped addr → b.read8 addr = 0) ∧
    (b.pastImage addr → b.read8 addr = 0xFF) ∧
    b.read16 addr = (b.read8 addr ||| (b.read8 (u32 (addr + 1)) <<< 8)) % 65536 ∧
    b.read32 addr = b.read8 addr ||| u32 (b.read8 (u32 (addr + 1)) <<< 8)
      ||| u32 (b.read8 (u32 (addr + 2)) <<< 16) ||| u32 (b.read8 (u32 (addr + 3)) <<< 24) ∧
    (Bus.unmapped addr → Bus.unmapped (u32 (addr + 1)) → b.read16 addr = 0) ∧
    (Bus.unmapped addr → Bus.unmapped (u32 (addr + 1)) → Bus.unmapped (u32 (addr + 2)) →
      Bus.unmapped (u32 (addr + 3)) → b.read32 addr = 0) ∧
    (b.pastImage addr → b.pastImage (u32 (addr + 1)) → b.read16 addr = 0xFFFF) ∧
    (b.pastImage addr → b.pastImage (u32 (addr + 1)) → b.pastImage (u32 (addr + 2)) →
      b.pastImage (u32 (addr + 3)) → b.read32 addr = 0xFFFFFFFF) := by
  refine ⟨read8_unmapped b addr, read8_pastImage b addr, rfl, rfl, ?_, ?_, ?_, ?_⟩
  · intro h0 h1
    unfold Bus.read16
    simp only [read8_unmapped b _ h0, read8_unmapped b _ h1]
    decide
  · intro h0 h1 h2 h3
    unfold Bus.read32
    simp only [read8_unmapped b _ h0, read8_unmapped b _ h1, read8_unmapped b _ h2,
      read8_unmapped b _ h3]
    decide
  · intro h0 h1
    unfold Bus.read16
    simp only [read8_pastImage b _ h0, read8_pastImage b _ h1]
    decide
  · intro h0 h1 h2 h3
    unfold Bus.read32
    simp only [read8_pastImage b _ h0, read8_pastImage b _ h1, read8_pastImage b _ h2,
      read8_pastImage b _ h3]
    decide

/-- Witness of `read_defaults` on a bus with a two-byte image and on the bus
    with no image. -/
theorem read_defaults_witness :
    (Bus.unmapped 0x03007F00 ∧ twoByteBus.pastImage 0x08000002 ∧
      twoByteBus.pastImage (u32 (0x08000002 + 1)) ∧ blankBus.pastImage 0x09FFFFFF) ∧
    twoByteBus.read8 0x03007F00 = 0 ∧
    twoByteBus.read8 0x08000002 = 0xFF ∧
    twoByteBus.read16 0x08000002 = 0xFFFF ∧
    blankBus.read8 0x09FFFFFF = 0xFF ∧
    twoByteBus.read16 0x08000000 = 0x3412 :=
  ⟨by decide,
   (read_defaults twoByteBus 0x03007F00).1 (by decide),
   (read_defaults twoByteBus 0x08000002).2.1 (by decide),
   (read_defaults twoByteBus 0x08000002).2.2.2.2.2.2.1 (by decide) (by decide),
   (read_defaults blankBus 0x09FFFFFF).2.1 (by decide),
   by decide⟩

/-! ## Ignored writes -/

/-- A byte write outside the two writable regions returns the bus as it was. -/
theorem write8_notWritable (b : Bus) (addr v : Nat) (h : Bus.notWritable addr) :
    b.write8 addr v = b := by
  unfold Bus.write8
  rw [if_neg h.1, if_neg h.2]

/-- A halfword write outside the two writable regions returns the bus as it was. -/
theorem write16_notWritable (b : Bus) (addr v : Nat) (h : Bus.notWritable addr) :
    b.write16 addr v = b := by
  unfold Bus.write16
  rw [if_neg h.1, if_neg h.2]

/-- The program-image window and the unmapped addresses are not writable. -/
theorem notWritable_of_target (addr : Nat)
    (h : (Bus.ROM_BASE ≤ addr ∧ addr < Bus.ROM_BASE + Bus.ROM_SIZE) ∨ Bus.unmapped addr) :
    Bus.notWritable addr := by
  unfold Bus.notWritable
  rcases h with h | h
  · simp only [Bus.VRAM_BASE, Bus.VRAM_SIZE, Bus.ROM_BASE, Bus.ROM_SIZE, Bus.WRAM_BASE,
      Bus.WRAM_SIZE] at h ⊢
    omega
  · exact ⟨h.1, h.2.2⟩

/-- C21: for every bus, value v and 32-bit address addr in the program-image
    window or outside all three regions, `write8(addr, v)` and
    `write16(addr, v)` return the bus unchanged (working memory, display
    surface and program image alike), and so does `write32(addr, v)` whenever
    addr + 2 is inside neither the display-surface nor the working-memory
    region. The writes are total functions, and the cell index a display write
    computes is always inside the surface. -/
theorem write_ignored (b : Bus) (addr v : Nat) (haddr : addr < 4294967296)
    (h : (Bus.ROM_BASE ≤ addr ∧ addr < Bus.ROM_BASE + Bus.ROM_SIZE) ∨ Bus.unmapped addr) :
    b.write8 addr v = b ∧ b.write16 addr v = b ∧
    (Bus.notWritable (addr + 2) → b.write32 addr v = b) ∧
    (∀ a, Bus.VRAM_BASE ≤ a → a < Bus.VRAM_BASE + Bus.VRAM_SIZE →
      (a - Bus.VRAM_BASE) >>> 1 < PPU.vramSize) := by
  have hn := notWritable_of_target addr h
  refine ⟨write8_notWritable b addr v hn, write16_notWritable b addr v hn, ?_, ?_⟩
  swap
  · intro a h1 h2
    simp only [Bus.VRAM_BASE, Bus.VRAM_SIZE, PPU.vramSize, PPU.WIDTH, PPU.HEIGHT,
      Nat.shiftRight_eq_div_pow] at h1 h2 ⊢
    omega
  intro h2
  have h2w : Bus.notWritable (u32 (addr + 2)) := by
    unfold Bus.notWritable u32 at *
    simp only [Bus.VRAM_BASE, Bus.VRAM_SIZE, Bus.WRAM_BASE, Bus.WRAM_SIZE] at h2 ⊢
    omega
  unfold Bus.write32
  rw [write16_notWritable b addr _ hn, write16_notWritable b _ _ h2w]

/-- Witness of `write_ignored`: writes at the program-image base of a bus with
    a two-byte image. -/
theorem write_ignored_witness :
    (0x08000000 < 4294967296 ∧
      ((Bus.ROM_BASE ≤ 0x08000000 ∧ 0x08000000 < Bus.ROM_BASE + Bus.ROM_SIZE) ∨
        Bus.unmapped 0x08000000) ∧ Bus.notWritable (0x08000000 + 2)) ∧
    twoByteBus.write8 0x08000000 0xAB = twoByteBus ∧
    twoByteBus.write16 0x08000000 0xABCD = twoByteBus ∧
    twoByteBus.write32 0x08000000 0xABCD1234 = twoByteBus :=
  ⟨by decide,
   (write_ignored twoByteBus 0x08000000 0xAB (by decide) (Or.inl (by decide))).1,
   (write_ignored twoByteBus 0x08000000 0xABCD (by decide) (Or.inl (by decide))).2.1,
   (write_ignored twoByteBus 0x08000000 0xABCD1234 (by decide) (Or.inl (by decide))).2.2.1
     (by decide)⟩


/-! ## Conditions after a compare -/


/-- C24: for all 32-bit a and b, after `setSubNZCV(a, b, a - b)` (what register
    compare, sub-operation 0xA, runs) `cond_passed` gives EQ iff a = b, NE iff
    a != b, CS iff a >= b, CC iff a < b, HI iff a > b, LS iff a <= b (unsigned),
    and GE iff a >= b, LT iff a < b, GT iff a > b, LE iff a <= b as signed
    32-bit integers. -/
theorem compare_conditions (s : CPU) (a b : Nat) (ha : a < 4294967296) (hb : b < 4294967296) :
    ((s.setSubNZCV a b (sub32 a b)).cond_passed 0x0 = true ↔ a = b) ∧
    ((s.setSubNZCV a b (sub32 a b)).cond_passed 0x1 = true ↔ a ≠ b) ∧
    ((s.setSubNZCV a b (sub32 a b)).cond_passed 0x2 = true ↔ a ≥ b) ∧
    ((s.setSubNZCV a b (sub32 a b)).cond_passed 0x3 = true ↔ a < b) ∧
    ((s.setSubNZCV a b (sub32 a b)).cond_passed 0x8 = true ↔ a > b) ∧
    ((s.setSubNZCV a b (sub32 a b)).cond_passed 0x9 = true ↔ a ≤ b) ∧
    ((s.setSubNZCV a b (sub32 a b)).cond_passed 0xA = true ↔ toInt32 a ≥ toInt32 b) ∧
    ((s.setSubNZCV a b (sub32 a b)).cond_passed 0xB = true ↔ toInt32 a < toInt32 b) ∧
    ((s.setSubNZCV a b (sub32 a b)).cond_passed 0xC = true ↔ toInt32 a > toInt32 b) ∧
    ((s.setSubNZCV a b (sub32 a b)).cond_passed 0xD = true ↔ toInt32 a ≤ toInt32 b) ∧
    (∀ (t : CPU) (rs rd : Nat), t.exec_alu 0xA rs rd
      = t.setSubNZCV (t.r rd) (t.r rs) (sub32 (t.r rd) (t.r rs))) := by
  have hr : sub32 a b < 4294967296 := Nat.mod_lt _ (by decide)
  have hN : (s.setSubNZCV a b (sub32 a b)).getN
      = decide (2147483648 ≤ (a + 4294967296 - b) % 4294967296) := by
    rw [getN_setSubNZCV, testBit31_eq _ hr]; rfl
  have hZ : (s.setSubNZCV a b (sub32 a b)).getZ = decide (a = b) := by
    rw [getZ_setSubNZCV]
    unfold sub32
    congr 1
    apply propext
    omega
  have hC : (s.setSubNZCV a b (sub32 a b)).getC = decide (b ≤ a) := getC_setSubNZCV s a b _
  have hV : (s.setSubNZCV a b (sub32 a b)).getV
      = ((decide (2147483648 ≤ a) ^^ decide (2147483648 ≤ b)) &&
         (decide (2147483648 ≤ a) ^^ decide (2147483648 ≤ (a + 4294967296 - b) % 4294967296))) := by
    rw [getV_setSubNZCV, testBit31_eq a ha, testBit31_eq b hb, testBit31_eq _ hr]; rfl
  simp only [CPU.cond_passed, hN, hZ, hC, hV]
  unfold toInt32
  refine ⟨?_, ?_, ?_, ?_, ?_, ?_, ?_, ?_, ?_, ?_, fun _ _ _ => rfl⟩
  · simp
  · simp
  · simp
  · simp
  · simp; omega
  · simp; omega
  all_goals
    by_cases h1 : a < 2147483648 <;> by_cases h2 : b < 2147483648 <;>
      by_cases h3 : 2147483648 ≤ (a + 4294967296 - b) % 4294967296 <;>
      simp [h1, h2, h3] <;> omega

/-- Witness of `compare_conditions`: 5 against 0xFFFFFFFF (-1 signed) is lower
    unsigned and greater signed. -/
theorem compare_conditions_witness :
    (5 < 4294967296 ∧ 0xFFFFFFFF < 4294967296) ∧
    (((machineWith 0 0 0 0x20).setSubNZCV 5 0xFFFFFFFF (sub32 5 0xFFFFFFFF)).cond_passed 0x3
        = true ↔ 5 < 0xFFFFFFFF) ∧
    ((machineWith 0 0 0 0x20).setSubNZCV 5 0xFFFFFFFF (sub32 5 0xFFFFFFFF)).cond_passed 0xC
        = true ∧
    ((machineWith 0 0 0 0x20).setSubNZCV 5 0xFFFFFFFF (sub32 5 0xFFFFFFFF)).cond_passed 0x8
        = false :=
  ⟨by decide,
   (compare_conditions (machineWith 0 0 0 0x20) 5 0xFFFFFFFF (by decide) (by decide)).2.2.2.1,
   by decide, by decide⟩

/-- For a 32-bit value the complement is the subtraction from all ones. -/
theorem not32_eq_sub (x : Nat) (h : x < 4294967296) : not32 x = 4294967295 - x := by
  apply Nat.eq_of_testBit_eq
  intro i
  have e : 4294967295 - x = 2 ^ 32 - (x + 1) := by omega
  rw [testBit_not32, e, Nat.testBit_two_pow_sub_succ (by omega)]
  by_cases hi : i < 32
  · simp [hi]
  · have hp : (2 : Nat) ^ 32 ≤ 2 ^ i := Nat.pow_le_pow_right (by decide) (by omega)
    have hx : x.testBit i = false := Nat.testBit_lt_two_pow (Nat.lt_of_lt_of_le h hp)
    simp [hi, hx]

/-- The signed negation of the source overflows at `0x80000000` only. -/
theorem neg_overflows_iff (b : Nat) : neg_overflows b = true ↔ b = 0x80000000 := by
  unfold neg_overflows toInt32
  rw [decide_eq_true_eq]
  split <;> omega

/-- C25: a step that fetches the negate word `0x4000 | 0x9<<6 | rs<<3 | rd`
    with a 32-bit b in Rs, in a state whose behaviour is defined so far, has a
    defined outcome for every b except 0x80000000, where the negation of the
    source overflows `int32_t` and the step is undefined. For every other b,
    zero included, it writes Rd = (2^32 - b) mod 2^32, ends with Carry and
    oVerflow clear, and takes Negative and Zero from the result. -/
theorem neg_step (s : CPU) (rs rd : Nat) (hrs : rs < 8) (hrd : rd < 8)
    (hb : s.r rs < 4294967296) (hs : s.ub = false)
    (hfetch : s.fetch16_pc.1 = 0x4000 ||| 0x9 <<< 6 ||| rs <<< 3 ||| rd) :
    ((s.step).ub = true ↔ s.r rs = 0x80000000) ∧
    (s.r rs ≠ 0x80000000 →
      (s.step).r rd = (4294967296 - s.r rs) % 4294967296 ∧
      (s.step).getC = false ∧ (s.step).getV = false ∧
      (s.step).getN = ((4294967296 - s.r rs) % 4294967296).testBit 31 ∧
      ((s.step).getZ = true ↔ (4294967296 - s.r rs) % 4294967296 = 0)) := by
  obtain ⟨_, f2, _, _⟩ := step_frame_pc s
  have e2 : (s.fetch16_pc.2).r rs = s.r rs := f2 rs (by simp only [CPU.PC]; omega)
  have hres : ofInt32 (-(toInt32 (s.r rs))) = (4294967296 - s.r rs) % 4294967296 := by
    unfold ofInt32 toInt32
    split <;> omega
  have hop : u32 (not32 (s.r rs) + 1) = (4294967296 - s.r rs) % 4294967296 := by
    rw [not32_eq_sub _ hb]; unfold u32; omega
  have hstep : s.step = (s.fetch16_pc.2).exec_alu 0x9 rs rd := by
    unfold CPU.step
    simp only
    rw [hfetch, exec_thumb_alu _ 0x9 rs rd (by decide) hrs hrd]
  obtain ⟨a1, a2, _, a4⟩ := exec_alu_neg (s.fetch16_pc.2) rs rd
  rw [← hstep, e2, hres] at a1
  rw [← hstep, e2, hres, hop] at a2
  rw [← hstep, e2] at a4
  have hu : (s.fetch16_pc.2).ub = false := hs
  refine ⟨?_, fun _ => ?_⟩
  · rw [a4, hu, Bool.or_false]
    exact neg_overflows_iff _
  generalize hR : (4294967296 - s.r rs) % 4294967296 = res at *
  have hlt : res < 4294967296 := by rw [← hR]; exact Nat.mod_lt _ (by decide)
  refine ⟨by rw [a1]; simp, ?_, ?_, ?_, ?_⟩
  · show decide ((s.step).cpsr &&& CPU.FLAG_C ≠ 0) = false
    rw [a2]
    show (CPU.setAddNZCV _ 0 res res).getC = false
    rw [getC_setAddNZCV]; simp; omega
  · show decide ((s.step).cpsr &&& CPU.FLAG_V ≠ 0) = false
    rw [a2]
    show (CPU.setAddNZCV _ 0 res res).getV = false
    rw [getV_setAddNZCV]
    cases res.testBit 31 <;> simp
  · show decide ((s.step).cpsr &&& CPU.FLAG_N ≠ 0) = _
    rw [a2]
    show (CPU.setAddNZCV _ 0 res res).getN = _
    rw [getN_setAddNZCV]
  · show decide ((s.step).cpsr &&& CPU.FLAG_Z ≠ 0) = true ↔ _
    rw [a2]
    show (CPU.setAddNZCV _ 0 res res).getZ = true ↔ _
    rw [getZ_setAddNZCV]; simp

/-- Witness of `neg_step`: at b = 0x80000000 the step is undefined; at b = 0
    and at b = 1, from a state with Carry and oVerflow set, it is defined,
    clears both flags and writes 0 and 0xFFFFFFFF. -/
theorem neg_step_witness :
    (1 < 8 ∧ 0 < 8 ∧ (machineWith 0x4248 7 0x80000000 0x30000020).r 1 < 4294967296 ∧
      (machineWith 0x4248 7 0x80000000 0x30000020).ub = false ∧
      (machineWith 0x4248 7 0x80000000 0x30000020).fetch16_pc.1
        = 0x4000 ||| 0x9 <<< 6 ||| 1 <<< 3 ||| 0) ∧
    ((machineWith 0x4248 7 0x80000000 0x30000020).step).ub = true ∧
    ((machineWith 0x4248 7 0 0x30000020).step).ub = false ∧
    ((machineWith 0x4248 7 0 0x30000020).step).getC = false ∧
    ((machineWith 0x4248 7 0 0x30000020).step).getV = false ∧
    ((machineWith 0x4248 7 0 0x30000020).step).r 0 = 0 ∧
    ((machineWith 0x4248 7 1 0x30000020).step).getC = false ∧
    ((machineWith 0x4248 7 1 0x30000020).step).r 0 = 0xFFFFFFFF :=
  ⟨by decide,
   (neg_step (machineWith 0x4248 7 0x80000000 0x30000020) 1 0 (by decide) (by decide)
      (by decide) rfl (by decide)).1.2 rfl,
   by decide,
   ((neg_step (machineWith 0x4248 7 0 0x30000020) 1 0 (by decide) (by decide)
      (by decide) rfl (by decide)).2 (by decide)).2.1,
   ((neg_step (machineWith 0x4248 7 0 0x30000020) 1 0 (by decide) (by decide)
      (by decide) rfl (by decide)).2 (by decide)).2.2.1,
   by decide, by decide, by decide⟩

/-! ## Program-counter parity and the compact-encoding bit -/

/-- A state keeps its own parity and mode bits. -/
theorem keeps_refl (s : CPU) : s.keeps s := ⟨rfl, fun _ _ => rfl⟩

/-- `setNZ` writes only bits 31 and 30. -/
theorem keeps_setNZ (s t : CPU) (res : Nat) (h : s.keeps t) : s.keeps (t.setNZ res) := by
  refine ⟨h.1, fun i hi => ?_⟩
  rw [← h.2 i hi]
  simp only [CPU.setNZ, Nat.testBit_or, Nat.testBit_and, testBit_not32, testBit_ite,
    testBit_FLAG_N, testBit_FLAG_Z]
  have h1 : ¬ 31 = i := by omega
  have h2 : ¬ 30 = i := by omega
  have h3 : i < 32 := by omega
  by_cases hr : res = 0 <;> by_cases hb : res &&& 2147483648 ≠ 0 <;> simp [h1, h2, h3, hr, hb]

/-- Writing the Carry bit touches only bit 29. -/
theorem keeps_putC (s t : CPU) (c : Bool) (h : s.keeps t) : s.keeps (t.putC c) := by
  refine ⟨h.1, fun i hi => ?_⟩
  rw [← h.2 i hi]
  simp only [CPU.putC, testBit_ite, Nat.testBit_or, Nat.testBit_and, testBit_not32,
    testBit_FLAG_C]
  have h1 : ¬ 29 = i := by omega
  have h3 : i < 32 := by omega
  cases c <;> simp [h1, h3]

/-- A status word that agrees below bit 28 may replace the old one. -/
theorem keeps_cpsr (s t : CPU) (c : Nat) (h : s.keeps t)
    (hc : ∀ i, i < 28 → c.testBit i = t.cpsr.testBit i) :
    s.keeps { t with cpsr := c } :=
  ⟨h.1, fun i hi => by rw [← h.2 i hi]; exact hc i hi⟩

/-- `setLogicNZC` writes only condition-flag bits. -/
theorem keeps_setLogicNZC (s t : CPU) (res : Nat) (c : Bool) (h : s.keeps t) :
    s.keeps (t.setLogicNZC res c) := by
  have h1 := keeps_setNZ s t res h
  refine ⟨h1.1, fun i hi => ?_⟩
  rw [← h1.2 i hi]
  simp only [CPU.setLogicNZC, testBit_ite, Nat.testBit_or, Nat.testBit_and, testBit_not32,
    testBit_FLAG_C, testBit_FLAG_V, Nat.zero_testBit]
  have e1 : ¬ 29 = i := by omega
  have e2 : ¬ 28 = i := by omega
  have e3 : i < 32 := by omega
  cases c <;> simp [e1, e2, e3]

/-- `setAddNZCV` writes only condition-flag bits. -/
theorem keeps_setAddNZCV (s t : CPU) (a b res : Nat) (h : s.keeps t) :
    s.keeps (t.setAddNZCV a b res) := by
  have h1 := keeps_setNZ s t res h
  refine ⟨h1.1, fun i hi => ?_⟩
  rw [← h1.2 i hi]
  simp only [CPU.setAddNZCV, testBit_ite, Nat.testBit_or, Nat.testBit_and, testBit_not32,
    testBit_FLAG_C, testBit_FLAG_V, Nat.zero_testBit]
  have e1 : ¬ 29 = i := by omega
  have e2 : ¬ 28 = i := by omega
  have e3 : i < 32 := by omega
  simp [e1, e2, e3]

/-- `setSubNZCV` writes only condition-flag bits. -/
theorem keeps_setSubNZCV (s t : CPU) (a b res : Nat) (h : s.keeps t) :
    s.keeps (t.setSubNZCV a b res) := by
  have h1 := keeps_setNZ s t res h
  refine ⟨h1.1, fun i hi => ?_⟩
  rw [← h1.2 i hi]
  simp only [CPU.setSubNZCV, testBit_ite, Nat.testBit_or, Nat.testBit_and, testBit_not32,
    testBit_FLAG_C, testBit_FLAG_V, Nat.zero_testBit]
  have e1 : ¬ 29 = i := by omega
  have e2 : ¬ 28 = i := by omega
  have e3 : i < 32 := by omega
  simp [e1, e2, e3]

/-- Writing a register named by a 3-bit field never writes the program counter. -/
theorem keeps_setReg_low (s t : CPU) (x v : Nat) (h : s.keeps t) :
    s.keeps (t.setReg (x &&& 0x7) v) := by
  have hx : x &&& 0x7 ≤ 7 := Nat.and_le_right
  refine ⟨?_, h.2⟩
  rw [← h.1]
  simp only [CPU.setReg, CPU.PC]
  rw [if_neg (by omega)]

/-- A bus write changes neither registers nor status word. -/
theorem keeps_bus (s t : CPU) (b : Option Bus) (h : s.keeps t) :
    s.keeps { t with bus := b } := h

/-- A branch adds an even offset to the program counter. -/
theorem keeps_jump (s t : CPU) (k : Int) (h : s.keeps t) :
    s.keeps (t.setReg CPU.PC (ofInt32 ((t.r CPU.PC : Int) + k * 2))) := by
  refine ⟨?_, h.2⟩
  rw [← h.1]
  simp only [CPU.setReg, CPU.PC, if_true]
  unfold ofInt32
  omega

/-- The fetch adds 2 to the program counter. -/
theorem keeps_advance (s : CPU) : s.keeps (s.fetch16_pc.2) := by
  refine ⟨?_, fun _ _ => rfl⟩
  simp only [CPU.fetch16_pc, CPU.setReg, CPU.PC, if_true]
  unfold u32
  omega

/-- Keeping parity and mode bits composes. -/
theorem keeps_trans (s t u : CPU) (h1 : s.keeps t) (h2 : t.keeps u) : s.keeps u :=
  ⟨h2.1.trans h1.1, fun i hi => (h2.2 i hi).trans (h1.2 i hi)⟩

/-- The multiply flag update writes only condition-flag bits. -/
theorem keeps_mul (s t : CPU) (res : Nat) (h : s.keeps t) :
    s.keeps { t.setNZ res with cpsr := (t.setNZ res).cpsr &&& not32 (CPU.FLAG_C ||| CPU.FLAG_V) } := by
  have h1 := keeps_setNZ s t res h
  refine ⟨h1.1, fun i hi => ?_⟩
  rw [← h1.2 i hi]
  simp only [Nat.testBit_or, Nat.testBit_and, testBit_not32, testBit_FLAG_C, testBit_FLAG_V]
  have e1 : ¬ 29 = i := by omega
  have e2 : ¬ 28 = i := by omega
  have e3 : i < 32 := by omega
  simp [e1, e2, e3]

/-- Both arms of a decode test keep parity and mode bits. -/
theorem keeps_ite (s : CPU) (c : Prop) [Decidable c] (a b : CPU)
    (ha : s.keeps a) (hb : s.keeps b) : s.keeps (if c then a else b) := by
  split
  · exact ha
  · exact hb

/-- Every two-register ALU sub-operation keeps parity and mode bits. -/
theorem keeps_exec_alu (s : CPU) (y rs x : Nat) :
    s.keeps (s.exec_alu (y &&& 0xF) rs (x &&& 0x7)) := by
  have hy : y &&& 0xF ≤ 15 := Nat.and_le_right
  generalize y &&& 0xF = subop at hy
  have hlog : ∀ res c, s.keeps ((s.setLogicNZC res c).setReg (x &&& 0x7) res) :=
    fun res c => keeps_setReg_low _ _ _ _ (keeps_setLogicNZC _ _ _ _ (keeps_refl s))
  have hadd : ∀ a b res, s.keeps ((s.setAddNZCV a b res).setReg (x &&& 0x7) res) :=
    fun a b res => keeps_setReg_low _ _ _ _ (keeps_setAddNZCV _ _ _ _ _ (keeps_refl s))
  have hsub : ∀ a b res, s.keeps ((s.setSubNZCV a b res).setReg (x &&& 0x7) res) :=
    fun a b res => keeps_setReg_low _ _ _ _ (keeps_setSubNZCV _ _ _ _ _ (keeps_refl s))
  interval_cases subop
  · exact hlog _ _
  · exact hlog _ _
  · exact hlog _ _
  · exact hlog _ _
  · exact hlog _ _
  · exact hadd _ _ _
  · exact hsub _ _ _
  · exact hlog _ _
  · exact keeps_setLogicNZC _ _ _ _ (keeps_refl s)
  · exact keeps_ite s _ _ _ (hadd _ _ _) (hadd _ _ _)
  · exact keeps_setSubNZCV _ _ _ _ _ (keeps_refl s)
  · exact keeps_setAddNZCV _ _ _ _ _ (keeps_refl s)
  · exact hlog _ _
  · exact keeps_setReg_low _ _ _ _ (keeps_mul _ _ _ (keeps_refl s))
  · exact hlog _ _
  · exact hlog _ _

/-- Every branch of `exec_thumb` keeps parity and mode bits. -/
theorem keeps_exec_thumb (s : CPU) (op : Nat) : s.keeps (s.exec_thumb op) := by
  unfold CPU.exec_thumb
  dsimp only
  repeat' (with_reducible refine keeps_ite s _ _ _ ?_ ?_)
  all_goals try (cases s.bus <;> dsimp only)
  all_goals
    first
      | with_reducible exact keeps_refl s
      | with_reducible exact keeps_setReg_low _ _ _ _ (keeps_setNZ _ _ _ (keeps_putC _ _ _ (keeps_refl s)))
      | with_reducible exact keeps_setReg_low _ _ _ _ (keeps_setNZ _ _ _ (keeps_refl s))
      | with_reducible exact keeps_setNZ _ _ _ (keeps_setReg_low _ _ _ _ (keeps_refl s))
      | with_reducible exact keeps_setSubNZCV _ _ _ _ _ (keeps_refl s)
      | with_reducible exact keeps_setReg_low _ _ _ _ (keeps_setAddNZCV _ _ _ _ _ (keeps_refl s))
      | with_reducible exact keeps_setReg_low _ _ _ _ (keeps_setSubNZCV _ _ _ _ _ (keeps_refl s))
      | with_reducible exact keeps_exec_alu s _ _ _
      | with_reducible exact keeps_setReg_low _ _ _ _ (keeps_refl s)
      | with_reducible exact keeps_bus _ _ _ (keeps_refl s)
      | with_reducible exact keeps_jump _ _ _ (keeps_refl s)

/-- One step keeps parity and mode bits. -/
theorem keeps_step (s : CPU) : s.keeps s.step :=
  keeps_trans s _ _ (keeps_advance s) (keeps_exec_thumb _ _)

/-- Any number of steps keeps parity and mode bits. -/
theorem keeps_steps (n : Nat) (s : CPU) : s.keeps (s.steps n) := by
  induction n generalizing s with
  | zero => exact keeps_refl s
  | succ n ih => exact keeps_trans s _ _ (keeps_step s) (ih s.step)

/-- C22: every state reached from `reset()` by any number of `step()` calls,
    whatever the bus holds, has an even program counter and bit 5 of the status
    word set: `reset()` establishes both, and every step keeps the parity of
    the program counter and every status-word bit below the four condition
    flags. -/
theorem reachable_invariant (s : CPU) (n : Nat) :
    ((s.reset).steps n).r CPU.PC % 2 = 0 ∧
    ((s.reset).steps n).cpsr.testBit 5 = true ∧
    ((s.reset).steps n).cpsr &&& CPU.FLAG_T ≠ 0 ∧
    ((s.reset).r CPU.PC % 2 = 0 ∧ (s.reset).cpsr.testBit 5 = true) ∧
    (∀ t : CPU, (t.step).r CPU.PC % 2 = t.r CPU.PC % 2 ∧
      ∀ i, i < 28 → (t.step).cpsr.testBit i = t.cpsr.testBit i) := by
  have hpc : (s.reset).r CPU.PC % 2 = 0 := by
    simp [CPU.reset, CPU.setReg, CPU.PC, CPU.SP]
  have hT : (s.reset).cpsr.testBit 5 = true := by
    have hc : (s.reset).cpsr = 0x20 := by simp [CPU.reset, CPU.setReg]
    rw [hc]
    decide
  obtain ⟨k1, k2⟩ := keeps_steps n s.reset
  have h5 : ((s.reset).steps n).cpsr.testBit 5 = true := by rw [k2 5 (by decide)]; exact hT
  refine ⟨by rw [k1]; exact hpc, h5, ?_, ⟨hpc, hT⟩, fun t => keeps_step t⟩
  exact (and_two_pow_ne_zero _ 5).mpr h5

/-! ## The generated test program on the machine -/

/-- Running `m + n` steps is running `m` steps and then `n`. -/
theorem steps_add (m n : Nat) (s : CPU) : s.steps (m + n) = (s.steps m).steps n := by
  induction m generalizing s with
  | zero => rw [Nat.zero_add]; rfl
  | succ m ih =>
    rw [Nat.add_right_comm]
    exact ih s.step

/-- A fixed point of `step` stays put for any number of steps. -/
theorem steps_fixed (n : Nat) (s : CPU) (h : s.step = s) : s.steps n = s := by
  induction n with
  | zero => rfl
  | succ n ih =>
    show (s.step).steps n = s
    rw [h]; exact ih

/-- A state whose next instruction is `B .` (`0xE7FF`) is a fixed point of
    `step`. -/
theorem self_branch_fixed (s : CPU) (hpc : s.r CPU.PC < 4294967296)
    (hfetch : s.fetch16_pc.1 = 0xE7FF) : s.step = s := by
  have hm : 0xE7FF &&& 0xF800 = 0xE000 := by decide
  have hk : (if (0xE7FF &&& 0x7FF) &&& 0x400 ≠ 0 then ((0xE7FF &&& 0x7FF : Nat) : Int) - 2048
      else ((0xE7FF &&& 0x7FF : Nat) : Int)) = -1 := by decide
  obtain ⟨f1, f2, f3, f4⟩ := step_frame_pc s
  have hstep : s.step = (s.fetch16_pc.2).setReg CPU.PC
      (ofInt32 (((s.fetch16_pc.2).r CPU.PC : Int) + (-1) * 2)) := by
    unfold CPU.step
    simp only
    rw [hfetch, exec_thumb_branch _ _ hm, hk]
  have hv : (s.step).r CPU.PC = s.r CPU.PC := by
    rw [hstep]
    simp only [CPU.setReg, if_true]
    rw [f1]
    unfold ofInt32 u32
    omega
  have hr : (s.step).r = s.r := by
    funext i
    by_cases hi : i = CPU.PC
    · rw [hi]; exact hv
    · rw [hstep, ← f2 i hi]; simp [CPU.setReg, hi]
  have hc : (s.step).cpsr = s.cpsr := by rw [hstep]; exact f3
  have hb : (s.step).bus = s.bus := by rw [hstep]; exact f4
  have hu : (s.step).ub = s.ub := by rw [hstep]; rfl
  cases hs : s.step with
  | mk r1 c1 b1 u1 =>
    rw [hs] at hr hc hb hu
    cases s with
    | mk r0 c0 b0 u0 =>
      simp only at hr hc hb hu
      rw [hr, hc, hb, hu]

/-- C23 (code evaluated at the failing input, color 0x001F and pixels 200): the
    program of `build_thumb_rom` stores the color once; its words `0x3202`
    (add 2 to r2), `0x3D01` (subtract 1 from r5) and `0x2D00` (compare r5 with
    0) are executed as moves, so r2 = 2, then r5 = 1, then r5 = 0 with Zero
    set, the `BNE` falls through, and from step 12 on the machine sits at the
    final `B .`. After 7 + 5 * 200 steps the program counter is at that
    instruction and cell 0 holds the color, but cell 1 still holds 0. -/
theorem romgen_fill_stalls :
    build_thumb_rom 0x001F 200 =
      [0x2206, 0x0612, 0x231F, 0x2400, 0x0224, 0x4323, 0x25C8,
       0x8013, 0x3202, 0x3D01, 0x2D00, 0xD1FB, 0xE7FF] ∧
    ((bootMachine (to_bytes_little_endian (build_thumb_rom 0x001F 200))).steps 9).r 2 = 2 ∧
    ((bootMachine (to_bytes_little_endian (build_thumb_rom 0x001F 200))).steps 10).r 5 = 1 ∧
    ((bootMachine (to_bytes_little_endian (build_thumb_rom 0x001F 200))).steps 11).r 5 = 0 ∧
    (∀ n, 12 ≤ n →
      (bootMachine (to_bytes_little_endian (build_thumb_rom 0x001F 200))).steps n
        = (bootMachine (to_bytes_little_endian (build_thumb_rom 0x001F 200))).steps 12) ∧
    ((bootMachine (to_bytes_little_endian (build_thumb_rom 0x001F 200))).steps
        (7 + 5 * 200)).r CPU.PC = 0x08000000 + 2 * 12 ∧
    ((bootMachine (to_bytes_little_endian (build_thumb_rom 0x001F 200))).steps
        (7 + 5 * 200)).cell 0 = 0x001F ∧
    ((bootMachine (to_bytes_little_endian (build_thumb_rom 0x001F 200))).steps
        (7 + 5 * 200)).cell 1 = 0 := by
  have hfix : ∀ n, 12 ≤ n →
      (bootMachine (to_bytes_little_endian (build_thumb_rom 0x001F 200))).steps n
        = (bootMachine (to_bytes_little_endian (build_thumb_rom 0x001F 200))).steps 12 := by
    intro n hn
    obtain ⟨k, rfl⟩ := Nat.exists_eq_add_of_le hn
    rw [steps_add]
    exact steps_fixed k _ (self_branch_fixed _ (by decide) (by decide))
  refine ⟨by decide, by decide, by decide, by decide, hfix, ?_, ?_, ?_⟩
  · rw [hfix _ (by decide)]; decide
  · rw [hfix _ (by decide)]; decide
  · rw [hfix _ (by decide)]; decide

end gba
